import Mathlib

/-!
Verification of the workflow-composition layer (`src/celery/canvas.py`).

The module is a DSL of task-invocation descriptors (`Signature`, a `dict`
subclass) and composites (`chain`, `group`, `chord`, `xmap`, `xstarmap`,
`chunks`).  Python objects are mutable and aliased, and several claims are
about aliasing (clone independence, in-place mutation), so the embedding is
a small heap semantics: mutable dictionaries and lists live in a heap
indexed by allocation order, immutable values (strings, numbers, tuples,
references) are a `PVal`.  Every operation of the source is a function on
the heap; fallible operations return `Except PyErr`.
-/

namespace Canvas

/-- Python values as they occur in the module: `None`, booleans, integers,
strings, immutable tuples, and references to mutable heap objects (dicts and
lists).  Equality on references is identity, matching the identity fast path
of Python comparisons; content comparison of two distinct objects does not
occur in the flows modelled here. -/
inductive PVal where
  | none : PVal
  | bool : Bool → PVal
  | int : Int → PVal
  | str : String → PVal
  | tup : List PVal → PVal
  | ref : Nat → PVal

mutual

/-- Equality of values as the module's `value not in items` test sees it:
structural on immutable values, identity on references (the identity fast
path of Python's comparison; two distinct objects with equal contents are
never compared on the modelled paths). -/
def PVal.beq : PVal → PVal → Bool
  | PVal.none, PVal.none => true
  | PVal.bool x, PVal.bool y => x == y
  | PVal.int x, PVal.int y => x == y
  | PVal.str x, PVal.str y => x == y
  | PVal.tup xs, PVal.tup ys => PVal.beqList xs ys
  | PVal.ref x, PVal.ref y => x == y
  | _, _ => false

def PVal.beqList : List PVal → List PVal → Bool
  | [], [] => true
  | x :: xs, y :: ys => PVal.beq x y && PVal.beqList xs ys
  | _, _ => false

end

/-- `value in items` on a Python list. -/
def containsVal (l : List PVal) (v : PVal) : Bool :=
  l.any (fun x => PVal.beq x v)

/-- The Python classes of `canvas.py` that an object in the model can have:
`Signature` itself or one of its registered subclasses. -/
inductive SigClass where
  | signature
  | chainC
  | groupC
  | chordC
  | xmapC
  | xstarmapC
  | chunksC
deriving DecidableEq, Repr

/-- A mutable heap object: a plain dict, a list, or a `Signature` instance
(a dict subclass, so it carries its item entries; the extra association list
holds instance attributes such as `chain.tasks`, which Python stores outside
the dict items). -/
inductive Obj where
  | dict : List (String × PVal) → Obj
  | pylist : List PVal → Obj
  | sig : SigClass → List (String × PVal) → List (String × PVal) → Obj

/-- The heap: objects indexed by allocation order. -/
structure Heap where
  objs : List Obj

/-- Python exceptions raised by the modelled code paths. -/
inductive PyErr where
  | attributeError : String → PyErr
  | keyError : String → PyErr
  | typeError : String → PyErr
  | recursionError : PyErr
deriving DecidableEq, Repr

def Heap.get (h : Heap) (a : Nat) : Option Obj :=
  h.objs.get? a

def Heap.alloc (h : Heap) (o : Obj) : Heap × Nat :=
  (⟨h.objs ++ [o]⟩, h.objs.length)

def Heap.write (h : Heap) (a : Nat) (o : Obj) : Heap :=
  ⟨h.objs.set a o⟩

def Heap.allocDict (h : Heap) (d : List (String × PVal)) : Heap × Nat :=
  h.alloc (Obj.dict d)

def Heap.allocList (h : Heap) (l : List PVal) : Heap × Nat :=
  h.alloc (Obj.pylist l)

/-- Association-list lookup: the value stored under a key (first match; the
dict operations below keep keys unique). -/
def alookup (d : List (String × PVal)) (k : String) : Option PVal :=
  match d with
  | [] => Option.none
  | (k', v) :: rest => if k' = k then some v else alookup rest k

/-- `d[k] = v` on an insertion-ordered dict: update in place if present,
append otherwise (CPython's dict semantics). -/
def aset (d : List (String × PVal)) (k : String) (v : PVal) : List (String × PVal) :=
  match d with
  | [] => [(k, v)]
  | (k', v') :: rest => if k' = k then (k', v) :: rest else (k', v') :: aset rest k v

/-- `dict(d, **u)` / `d.update(u)`: the entries of `u` overlaid onto `d`,
override winning per key. -/
def aupdate (d u : List (String × PVal)) : List (String × PVal) :=
  u.foldl (fun acc kv => aset acc kv.1 kv.2) d

/-- Lookup in an override list where a later entry shadows an earlier one
with the same key (keyword-argument semantics). -/
def alookupLast (u : List (String × PVal)) (k : String) : Option PVal :=
  alookup u.reverse k

/-- The first option when present, the second otherwise (used to state
"override wins per key"). -/
def oorElse (a b : Option PVal) : Option PVal :=
  match a with
  | some v => some v
  | Option.none => b

/-- Python truthiness of the values stored in signature fields. -/
def PVal.truthy (h : Heap) : PVal → Bool
  | PVal.none => false
  | PVal.bool b => b
  | PVal.int n => n ≠ 0
  | PVal.str s => s ≠ ""
  | PVal.tup xs => ¬ xs.isEmpty
  | PVal.ref a => match h.get a with
    | some (Obj.dict d) => ¬ d.isEmpty
    | some (Obj.pylist l) => ¬ l.isEmpty
    | some (Obj.sig _ e _) => ¬ e.isEmpty
    | Option.none => false

/-- The contents of the dict object a value refers to, `[]` when the value
is not a reference to a dict (does not occur on the modelled paths). -/
def derefDict (h : Heap) : PVal → List (String × PVal)
  | PVal.ref a => match h.get a with
    | some (Obj.dict d) => d
    | _ => []
  | _ => []

/-- The elements of a sequence value: a tuple's elements or a list object's
elements (`tuple(x)` / iteration in the source). -/
def seqElems (h : Heap) : PVal → List PVal
  | PVal.tup xs => xs
  | PVal.ref a => match h.get a with
    | some (Obj.pylist l) => l
    | _ => []
  | _ => []

/-- The Python class of the object at an address (`Signature` instances
only). -/
def classOf (h : Heap) (a : Nat) : Option SigClass :=
  match h.get a with
  | some (Obj.sig c _ _) => some c
  | _ => Option.none

/-- A `Signature`'s dict items. -/
def Sig.entries (h : Heap) (a : Nat) : List (String × PVal) :=
  match h.get a with
  | some (Obj.sig _ e _) => e
  | _ => []

/-- `self.get(key)` through `_getitem_property`: absent keys read as `None`
(`dict.get`), exactly as the property accessors of the source behave. -/
def Sig.item (h : Heap) (a : Nat) (k : String) : PVal :=
  (alookup (Sig.entries h a) k).getD PVal.none

/-- `self[key] = value` through a `_getitem_property` setter. -/
def Sig.setItem (h : Heap) (a : Nat) (k : String) (v : PVal) : Heap :=
  match h.get a with
  | some (Obj.sig c e at') => h.write a (Obj.sig c (aset e k v) at')
  | _ => h

/-- An instance attribute of a `Signature` object (`chain.tasks`,
`group.tasks`, the cached `_type`). -/
def Sig.attr (h : Heap) (a : Nat) (k : String) : Option PVal :=
  match h.get a with
  | some (Obj.sig _ _ at') => alookup at' k
  | _ => Option.none

/-- `self.name = value` for an instance attribute. -/
def Sig.setAttr (h : Heap) (a : Nat) (k : String) (v : PVal) : Heap :=
  match h.get a with
  | some (Obj.sig c e at') => h.write a (Obj.sig c e (aset at' k v))
  | _ => h

def Heap.allocSig (h : Heap) (c : SigClass) (e ats : List (String × PVal)) : Heap × Nat :=
  h.alloc (Obj.sig c e ats)

/-- `d[key]` on a dict: `KeyError` when the key is absent. -/
def getKey (d : List (String × PVal)) (k : String) : Except PyErr PVal :=
  match alookup d k with
  | some v => pure v
  | Option.none => Except.error (PyErr.keyError k)

/-- `dref[key] = value` where `dref` refers to a dict object. -/
def dictWrite (h : Heap) (dref : PVal) (k : String) (v : PVal) : Heap :=
  match dref with
  | PVal.ref a =>
    match h.get a with
    | some (Obj.dict d) => h.write a (Obj.dict (aset d k v))
    | _ => h
  | _ => h

/-- The elements a value contributes to a `*`-splat or a `+` of task
sequences: a tuple's or a list object's; anything else, or a mixed
tuple-plus-list concatenation, is a `TypeError` as in Python. -/
def splatElems (h : Heap) : PVal → Except PyErr (List PVal)
  | PVal.tup xs => pure xs
  | PVal.ref a =>
    match h.get a with
    | some (Obj.pylist l) => pure l
    | _ => Except.error (PyErr.typeError "argument after * must be an iterable")
  | _ => Except.error (PyErr.typeError "argument after * must be an iterable")

/-- `x + y` on the stored task sequences (`self.tasks + other.tasks`):
defined for tuple+tuple and list+list, a `TypeError` otherwise. -/
def pyConcatSeq (h : Heap) (x y : PVal) : Except PyErr (List PVal) :=
  match x, y with
  | PVal.tup xs, PVal.tup ys => pure (xs ++ ys)
  | PVal.ref a, PVal.ref b =>
    match h.get a, h.get b with
    | some (Obj.pylist xs), some (Obj.pylist ys) => pure (xs ++ ys)
    | _, _ => Except.error (PyErr.typeError "can only concatenate")
  | _, _ => Except.error (PyErr.typeError "can only concatenate")

/-- `Signature.__init__` on the non-record path: normalize the task to its
name, store `args` as a tuple, `kwargs` and `options` as freshly built
mappings (`options=dict(options or {}, **ex)`; every in-module call site
passes literal mappings, which this models exactly), `subtask_type` as
given (`None` everywhere in the source) and the `immutable` flag. -/
def Signature.init (h : Heap) (cls : SigClass) (task : String) (args : List PVal)
    (kwargs options : List (String × PVal)) (subtask_type : PVal)
    (immutable : Bool) : Heap × Nat :=
  let rk := h.allocDict kwargs
  let ro := rk.1.allocDict options
  ro.1.allocSig cls
    [("task", PVal.str task), ("args", PVal.tup args),
     ("kwargs", PVal.ref rk.2), ("options", PVal.ref ro.2),
     ("subtask_type", subtask_type), ("immutable", PVal.bool immutable)]
    [("_type", PVal.none)]

/-- `Signature.__init__`'s reconstruction short circuit: when the first
argument is a record dict the entries are copied verbatim into the new
instance (`dict.__init__(self, task)`); the values, mutable mappings
included, are shared with the record. -/
def Signature.ofRecord (h : Heap) (d : List (String × PVal)) : Heap × Nat :=
  h.allocSig SigClass.signature d [("_type", PVal.none)]

/-- `tasks[0] if len(tasks) == 1 and is_list(tasks[0]) else tasks` in
`chain.__init__` (spec section 4.2: construction "unpacks a single sequence
argument"; `is_list`, from celery.utils.functional and not under src/,
holds of sequence objects). -/
def chain.normalizeTasks (h : Heap) (tasks : List PVal) : PVal :=
  match tasks with
  | [PVal.ref a] =>
    match h.get a with
    | some (Obj.pylist _) => PVal.ref a
    | _ => PVal.tup tasks
  | _ => PVal.tup tasks

/-- `chain.__init__`: store the (normalized) task sequence both as
`kwargs['tasks']` and as the `tasks` attribute, and tag `subtask_type` with
`'chain'`. -/
def chain.init (h : Heap) (tasks : List PVal) (options : List (String × PVal)) :
    Heap × Nat :=
  let tasksVal := chain.normalizeTasks h tasks
  let r := Signature.init h SigClass.chainC "celery.chain" []
    [("tasks", tasksVal)] options PVal.none false
  let h2 := Sig.setAttr r.1 r.2 "tasks" tasksVal
  let h3 := Sig.setItem h2 r.2 "subtask_type" (PVal.str "chain")
  (h3, r.2)

/-- `_maybe_group`: adopting an existing group copies its member sequence
into a fresh list (`list(tasks.tasks)`); otherwise `regen` leaves an already
materialized list or tuple unchanged (lazy sources are modelled as already
materialized, spec section 3: a "memoized, once-materialized element
sequence"). -/
def _maybe_group (h : Heap) (v : PVal) : Heap × PVal :=
  match v with
  | PVal.ref a =>
    match h.get a with
    | some (Obj.sig SigClass.groupC _ attrs) =>
      let elems := seqElems h ((alookup attrs "tasks").getD PVal.none)
      let r := h.allocList elems
      (r.1, PVal.ref r.2)
    | _ => (h, v)
  | _ => (h, v)

/-- `group.__init__`: a single argument is adopted through `_maybe_group`,
several arguments stay a tuple; tasks are stored as `kwargs['tasks']` and as
the `tasks` attribute, `subtask_type` is `'group'`. -/
def group.init (h : Heap) (tasks : List PVal) (options : List (String × PVal)) :
    Heap × Nat :=
  let r0 :=
    match tasks with
    | [t] => _maybe_group h t
    | _ => (h, PVal.tup tasks)
  let r := Signature.init r0.1 SigClass.groupC "celery.group" []
    [("tasks", r0.2)] options PVal.none false
  let h2 := Sig.setAttr r.1 r.2 "tasks" r0.2
  let h3 := Sig.setItem h2 r.2 "subtask_type" (PVal.str "group")
  (h3, r.2)

/-- `maybe_subtask`: `None`, already-constructed `Signature` objects and
non-dict values are returned unchanged, which are the only body shapes
arising in this development (a plain record dict, which the source would
wrap through `subtask`, is never passed as a body here). -/
def maybe_subtask (v : PVal) : PVal := v

/-- `chord.__init__`: header normalized through `_maybe_group`, body through
`maybe_subtask`, `subtask_type` tagged `'chord'`; there is no `tasks`
attribute (both `tasks` and `body` are read-only properties). -/
def chord.init (h : Heap) (header body : PVal) (options : List (String × PVal)) :
    Heap × Nat :=
  let r0 := _maybe_group h header
  let bdy := maybe_subtask body
  let r := Signature.init r0.1 SigClass.chordC "celery.chord" []
    [("header", r0.2), ("body", bdy)] options PVal.none false
  let h2 := Sig.setItem r.1 r.2 "subtask_type" (PVal.str "chord")
  (h2, r.2)

/-- `_basemap.__init__` for `xmap` (`_task_name = 'celery.map'`): the element
sequence is stored under `kwargs['it']` (already materialized here, see
`_maybe_group`), `immutable` is forced true, and `subtask_type` is never
set. -/
def xmap.init (h : Heap) (task it : PVal) (options : List (String × PVal)) :
    Heap × Nat :=
  Signature.init h SigClass.xmapC "celery.map" []
    [("task", task), ("it", it)] options PVal.none true

/-- `_basemap.__init__` for `xstarmap` (`_task_name = 'celery.starmap'`). -/
def xstarmap.init (h : Heap) (task it : PVal) (options : List (String × PVal)) :
    Heap × Nat :=
  Signature.init h SigClass.xstarmapC "celery.starmap" []
    [("task", task), ("it", it)] options PVal.none true

/-- `chunks.__init__`: task, element sequence and chunk size under `kwargs`,
`immutable` forced true, `subtask_type` never set. -/
def chunks.init (h : Heap) (task it n : PVal) (options : List (String × PVal)) :
    Heap × Nat :=
  Signature.init h SigClass.chunksC "celery.chunks" []
    [("task", task), ("it", it), ("n", n)] options PVal.none true

/-- `chord.tasks` property: `self.kwargs['header']`. -/
def chord.tasksProp (h : Heap) (a : Nat) : PVal :=
  (alookup (derefDict h (Sig.item h a "kwargs")) "header").getD PVal.none

/-- `chord.body` property: `self.kwargs.get('body')`. -/
def chord.bodyProp (h : Heap) (a : Nat) : PVal :=
  (alookup (derefDict h (Sig.item h a "kwargs")) "body").getD PVal.none

/-- Attribute lookup `self.tasks`: an instance attribute on `chain` and
`group`, a property on `chord`, and an `AttributeError` on every other
`Signature` (plain instances and the map variants define no such attribute
or property). -/
def Sig.getTasks (h : Heap) (a : Nat) : Except PyErr PVal :=
  match h.get a with
  | some (Obj.sig SigClass.chainC _ attrs) =>
    pure ((alookup attrs "tasks").getD PVal.none)
  | some (Obj.sig SigClass.groupC _ attrs) =>
    pure ((alookup attrs "tasks").getD PVal.none)
  | some (Obj.sig SigClass.chordC _ _) => pure (chord.tasksProp h a)
  | _ => Except.error (PyErr.attributeError "tasks")

/-- `Signature._merge`: immutable instances keep their stored args and
kwargs and overlay only the options override (into a fresh mapping); mutable
instances prepend the args override and overlay kwargs and options overrides
with override winning per key — building a fresh mapping only when the
respective override is nonempty, and passing the stored mapping through
otherwise. -/
def Signature._merge (h : Heap) (a : Nat) (args : List PVal)
    (kwargs options : List (String × PVal)) : Heap × PVal × PVal × PVal :=
  let sArgs := Sig.item h a "args"
  let sKwargs := Sig.item h a "kwargs"
  let sOptions := Sig.item h a "options"
  if (Sig.item h a "immutable").truthy h then
    let (h1, o) := h.allocDict (aupdate (derefDict h sOptions) options)
    (h1, sArgs, sKwargs, PVal.ref o)
  else
    let argsOut := if args.isEmpty then sArgs
      else PVal.tup (args ++ seqElems h sArgs)
    let (h1, kwargsOut) :=
      if kwargs.isEmpty then (h, sKwargs)
      else
        let (h1, k) := h.allocDict (aupdate (derefDict h sKwargs) kwargs)
        (h1, PVal.ref k)
    let (h2, optionsOut) :=
      if options.isEmpty then (h1, sOptions)
      else
        let (h2, o) := h1.allocDict (aupdate (derefDict h1 sOptions) options)
        (h2, PVal.ref o)
    (h2, argsOut, kwargsOut, optionsOut)

/-- `chain.from_dict`: rebuild from the record's stored task sequence and
options (`kwdict` only re-types keys and is the identity here). -/
def chain.from_dict (h : Heap) (d : List (String × PVal)) :
    Except PyErr (Heap × Nat) := do
  let kwVal ← getKey d "kwargs"
  let tasksVal ← getKey (derefDict h kwVal) "tasks"
  let tasks ← splatElems h tasksVal
  let optsVal ← getKey d "options"
  pure (chain.init h tasks (derefDict h optsVal))

/-- `group.from_dict`: the stored task sequence is passed as one positional
argument (no splat), so it goes through `_maybe_group` again. -/
def group.from_dict (h : Heap) (d : List (String × PVal)) :
    Except PyErr (Heap × Nat) := do
  let kwVal ← getKey d "kwargs"
  let tasksVal ← getKey (derefDict h kwVal) "tasks"
  let optsVal ← getKey d "options"
  pure (group.init h [tasksVal] (derefDict h optsVal))

/-- `chord.from_dict`: header required, body optional
(`kwargs.get('body')`). -/
def chord.from_dict (h : Heap) (d : List (String × PVal)) :
    Except PyErr (Heap × Nat) := do
  let kwVal ← getKey d "kwargs"
  let kw := derefDict h kwVal
  let header ← getKey kw "header"
  let body := (alookup kw "body").getD PVal.none
  let optsVal ← getKey d "options"
  pure (chord.init h header body (derefDict h optsVal))

/-- `_basemap.from_dict`: the source builds `chunks(*itemgetter('task',
'it')(d['kwargs']), **d['options'])` — a `chunks`, not a map, and with the
third positional argument `n` missing, so unless the options mapping happens
to carry an `n` keyword the call raises a `TypeError`. -/
def basemap.from_dict (h : Heap) (d : List (String × PVal)) :
    Except PyErr (Heap × Nat) := do
  let kwVal ← getKey d "kwargs"
  let kw := derefDict h kwVal
  let task ← getKey kw "task"
  let it ← getKey kw "it"
  let optsVal ← getKey d "options"
  let opts := derefDict h optsVal
  match alookup opts "n" with
  | some n => pure (chunks.init h task it n (opts.filter (fun kv => kv.1 ≠ "n")))
  | Option.none =>
    Except.error (PyErr.typeError "chunks() missing required argument n")

/-- `chunks.from_dict`. -/
def chunks.from_dict (h : Heap) (d : List (String × PVal)) :
    Except PyErr (Heap × Nat) := do
  let kwVal ← getKey d "kwargs"
  let kw := derefDict h kwVal
  let task ← getKey kw "task"
  let it ← getKey kw "it"
  let n ← getKey kw "n"
  let optsVal ← getKey d "options"
  pure (chunks.init h task it n (derefDict h optsVal))

/-- `Signature.from_dict`: dispatch on the record's `subtask_type`
discriminator through the `TYPES` registry (`register_type` registered
`chain`, `xmap`, `xstarmap`, `chunks`, `group` and `chord` under their class
names); a falsy tag builds a plain `Signature` holding the record's entries
verbatim, an unregistered truthy tag is a `KeyError`. -/
def Signature.from_dict (h : Heap) (d : List (String × PVal)) :
    Except PyErr (Heap × Nat) :=
  let typ := (alookup d "subtask_type").getD PVal.none
  if typ.truthy h then
    match typ with
    | PVal.str s =>
      if s = "chain" then chain.from_dict h d
      else if s = "group" then group.from_dict h d
      else if s = "chord" then chord.from_dict h d
      else if s = "xmap" then basemap.from_dict h d
      else if s = "xstarmap" then basemap.from_dict h d
      else if s = "chunks" then chunks.from_dict h d
      else Except.error (PyErr.keyError s)
    | _ => Except.error (PyErr.keyError "subtask_type")
  else pure (Signature.ofRecord h d)

/-- `Signature.__reduce__`: the wire record is `dict(self)`, the instance's
entries verbatim (the cached `_type` attribute lives outside the dict and is
excluded); deserialization is `subtask(record)`, which hands a plain record
dict to `Signature.from_dict`. -/
def Signature.reduceRecord (h : Heap) (a : Nat) : List (String × PVal) :=
  Sig.entries h a

/-- `Signature.clone`: `_merge` with the overrides, rebuild through
`Signature.from_dict` on a fresh record whose field values come straight
from the merge (so with empty overrides the stored mappings are passed on,
not copied), then carry the cached `_type` attribute over. -/
def Signature.clone (h : Heap) (a : Nat) (args : List PVal)
    (kwargs options : List (String × PVal)) : Except PyErr (Heap × Nat) := do
  let (h1, A, K, O) := Signature._merge h a args kwargs options
  let d := [("task", Sig.item h a "task"), ("args", A), ("kwargs", K),
            ("options", O), ("subtask_type", Sig.item h a "subtask_type"),
            ("immutable", Sig.item h a "immutable")]
  let (h2, s) ← Signature.from_dict h1 d
  let h3 := Sig.setAttr h2 s "_type" ((Sig.attr h a "_type").getD PVal.none)
  pure (h3, s)

/-- `clone` with virtual dispatch: `chord.clone` first runs
`Signature.clone`, then replaces the new instance's `kwargs['body']` with
`kwargs['body'].clone()`, catching `AttributeError` (a bodiless chord:
`None.clone`) and `KeyError` (a body whose own clone fails so, e.g. one
carrying an unregistered `subtask_type`) and leaving the shallow-copied
reference in place; any other error propagates.  The fuel bounds the
chord-body nesting depth (Python's recursion limit). -/
def cloneDispatch : Nat → Heap → Nat → List PVal → List (String × PVal) →
    List (String × PVal) → Except PyErr (Heap × Nat)
  | fuel, h, a, args, kwargs, options =>
    match classOf h a with
    | some SigClass.chordC => do
      let (h1, s) ← Signature.clone h a args kwargs options
      let skw := Sig.item h1 s "kwargs"
      let step : Except PyErr Heap := do
        let bodyVal ← getKey (derefDict h1 skw) "body"
        let bodyNat ← match bodyVal with
          | PVal.ref b => pure b
          | _ => Except.error (PyErr.attributeError "clone")
        let (h2, b') ← match fuel with
          | 0 => Except.error PyErr.recursionError
          | fuel' + 1 => cloneDispatch fuel' h1 bodyNat [] [] []
        pure (dictWrite h2 skw "body" (PVal.ref b'))
      match step with
      | Except.ok h2 => pure (h2, s)
      | Except.error (PyErr.attributeError _) => pure (h1, s)
      | Except.error (PyErr.keyError _) => pure (h1, s)
      | Except.error e => Except.error e
    | _ => Signature.clone h a args kwargs options

/-- `Signature.set`: in place; optionally flips `immutable`, overlays the
given options into the stored options mapping, returns `self`. -/
def Signature.set (h : Heap) (a : Nat) (immutable : Option Bool)
    (options : List (String × PVal)) : Heap × Nat :=
  let h1 := match immutable with
    | some b => Sig.setItem h a "immutable" (PVal.bool b)
    | Option.none => h
  let h2 := match Sig.item h1 a "options" with
    | PVal.ref o =>
      match h1.get o with
      | some (Obj.dict d) => h1.write o (Obj.dict (aupdate d options))
      | _ => h1
    | _ => h1
  (h2, a)

/-- `Signature.append_to_list_option`: get or create the list at
`options[key]` (`setdefault`), append `value` unless an equal entry is
already present, and return `value` in either case. -/
def Signature.append_to_list_option (h : Heap) (a : Nat) (key : String)
    (value : PVal) : Except PyErr (Heap × PVal) :=
  match Sig.item h a "options" with
  | PVal.ref o =>
    match h.get o with
    | some (Obj.dict d) =>
      let (h1, itemsVal) :=
        match alookup d key with
        | some v => (h, v)
        | Option.none =>
          let (ha, l) := h.allocList []
          (ha.write o (Obj.dict (aset d key (PVal.ref l))), PVal.ref l)
      match itemsVal with
      | PVal.ref la =>
        match h1.get la with
        | some (Obj.pylist items) =>
          let h2 := if containsVal items value then h1
            else h1.write la (Obj.pylist (items ++ [value]))
          Except.ok (h2, value)
        | _ => Except.error (PyErr.typeError "argument is not iterable")
      | _ => Except.error (PyErr.typeError "argument is not iterable")
    | _ => Except.error (PyErr.attributeError "setdefault")
  | _ => Except.error (PyErr.attributeError "setdefault")

/-- `Signature.link`. -/
def Signature.link (h : Heap) (a : Nat) (callback : PVal) :
    Except PyErr (Heap × PVal) :=
  Signature.append_to_list_option h a "link" callback

/-- `Signature.link_error`. -/
def Signature.link_error (h : Heap) (a : Nat) (errback : PVal) :
    Except PyErr (Heap × PVal) :=
  Signature.append_to_list_option h a "link_error" errback

/-- `link`/`link_error` with virtual dispatch (`key` is `'link'` or
`'link_error'`): `chord` forwards unconditionally to `self.body` — an
`AttributeError` on a bodiless chord, where the body read gives `None` —
and returns the callback itself; every other class appends through
`append_to_list_option`, which also returns the callback.  The fuel bounds
chord-body nesting. -/
def linkDispatch : Nat → String → Heap → Nat → PVal → Except PyErr (Heap × PVal)
  | fuel, key, h, a, callback =>
    match classOf h a with
    | some SigClass.chordC =>
      match chord.bodyProp h a with
      | PVal.ref b =>
        match fuel with
        | 0 => Except.error PyErr.recursionError
        | fuel' + 1 => do
          let (h1, _) ← linkDispatch fuel' key h b callback
          pure (h1, callback)
      | _ => Except.error (PyErr.attributeError key)
    | _ => Signature.append_to_list_option h a key callback

/-- `Signature.__or__`: composing with a chain on the right concatenates
`self.tasks` (an attribute a plain `Signature` does not have) with the
chain's tasks; otherwise a chain on the left appends the other descriptor,
and two plain descriptors start a fresh two-element chain. -/
def Signature.orOp (h : Heap) (a b : Nat) : Except PyErr (Heap × Nat) :=
  if classOf h b = some SigClass.chainC then do
    let selfTasks ← Sig.getTasks h a
    let otherTasks ← Sig.getTasks h b
    let ts ← pyConcatSeq h selfTasks otherTasks
    pure (chain.init h ts [])
  else
    match classOf h b with
    | some _ =>
      if classOf h a = some SigClass.chainC then do
        let selfTasks ← Sig.getTasks h a
        let ts ← pyConcatSeq h selfTasks (PVal.tup [PVal.ref b])
        pure (chain.init h ts [])
      else
        pure (chain.init h [PVal.ref a, PVal.ref b] [])
    | Option.none => Except.error (PyErr.typeError "unsupported operand")

/-- Modelled from the spec: `kombu.utils.fxrange` is not part of this
repository; per spec section 4.3 `skew` draws from "a deterministic cyclic
arithmetic progression of delay values (restarting at `start` once `stop`
is passed)".  This is the i-th value drawn, for integer parameters (no
`stop` means the progression never restarts). -/
def fxrangeVal (start : Int) (stop : Option Int) (step : Int) (i : Nat) : Int :=
  match stop with
  | Option.none => start + step * i
  | some stp =>
    let period := ((stp - start) / step).toNat + 1
    start + step * (i % period)

/-- The loop of `group.skew`: `task.set(countdown=_next_skew())` on each
member in iteration order (`i` counts the values already drawn). -/
def group.skewGo (h : Heap) (tasks : List PVal) (start : Int) (stop : Option Int)
    (step : Int) (i : Nat) : Heap :=
  match tasks with
  | [] => h
  | t :: rest =>
    let h1 := match t with
      | PVal.ref ta =>
        (Signature.set h ta Option.none
          [("countdown", PVal.int (fxrangeVal start stop step i))]).1
      | _ => h
    group.skewGo h1 rest start stop step (i + 1)

/-- `group.skew`: assign successive `fxrange` values to successive members'
`countdown` option, in place, and return `self`. -/
def group.skew (h : Heap) (a : Nat) (start : Int) (stop : Option Int)
    (step : Int) : Heap × Nat :=
  let tasks := seqElems h ((Sig.attr h a "tasks").getD PVal.none)
  (group.skewGo h tasks start stop step 0, a)

/-- `chord.__call__`: write the given-or-stored body back into the stored
kwargs (`body = self.kwargs['body'] = body or self.kwargs['body']`); then,
with the eager toggle off, ensure the body's options carry a `task_id`
(`setdefault` with a fresh uuid) and return the result handle keyed by that
id.  The eager branch delegates to local execution and the non-eager branch
hands `self.kwargs` to the external chord task — both external collaborators
(spec sections 1 and 4.4), so the toggle and the generated uuid are
parameters and the handle is the callback id itself. -/
def chord.call (h : Heap) (a : Nat) (body : Option Nat) (alwaysEager : Bool)
    (freshId : String) : Except PyErr (Heap × PVal) :=
  let kwVal := Sig.item h a "kwargs"
  let stored := (alookup (derefDict h kwVal) "body").getD PVal.none
  let bodyVal := match body with
    | some b => PVal.ref b
    | Option.none => stored
  let h1 := dictWrite h kwVal "body" bodyVal
  if alwaysEager then Except.ok (h1, PVal.str "eager-local-apply")
  else
    match bodyVal with
    | PVal.ref b =>
      match Sig.item h1 b "options" with
      | PVal.ref o =>
        match h1.get o with
        | some (Obj.dict d) =>
          match alookup d "task_id" with
          | some v => Except.ok (h1, v)
          | Option.none =>
            let h2 := h1.write o (Obj.dict (aset d "task_id" (PVal.str freshId)))
            Except.ok (h2, PVal.str freshId)
        | _ => Except.error (PyErr.attributeError "setdefault")
      | _ => Except.error (PyErr.attributeError "setdefault")
    | _ => Except.error (PyErr.attributeError "options")

/-- Modelled from the spec: `celery.utils.functional.chunks` is not under
src/; spec section 4.6: "partition the materialized element sequence into
consecutive slices of length `chunkSize` (final slice may be shorter)".
`chunkSize ≥ 1` per the spec (smaller values are unspecified there; here a
zero size keeps everything in one slice). -/
def chunksParts {α : Type} (xs : List α) (n : Nat) : List (List α) :=
  if xs.isEmpty then []
  else if n = 0 then [xs]
  else xs.take n :: chunksParts (xs.drop n) n
termination_by xs.length
decreasing_by
  rename_i h1 h2
  simp only [List.length_drop]
  have : xs ≠ [] := by simpa [List.isEmpty_iff] using h1
  have : 0 < xs.length := List.length_pos.mpr this
  omega

/-- The generator `(xstarmap(task, part) for part in _chunks(iter(it), n))`:
one `xstarmap` per slice, in slice order (materialized on adoption; the
slices, lists in the source, are stored as materialized sequences). -/
def buildStarmaps (h : Heap) (task : PVal) : List (List PVal) → Heap × List PVal
  | [] => (h, [])
  | p :: ps =>
    let r1 := xstarmap.init h task (PVal.tup p) []
    let r2 := buildStarmaps r1.1 task ps
    (r2.1, PVal.ref r1.2 :: r2.2)

/-- `chunks.group` of the source (named `toGroup` in the spec): partition
the stored element sequence by the stored chunk size and collect one
`xstarmap` per slice into one group. -/
def chunks.toGroup (h : Heap) (a : Nat) : Heap × Nat :=
  let kw := derefDict h (Sig.item h a "kwargs")
  let task := (alookup kw "task").getD PVal.none
  let it := (alookup kw "it").getD PVal.none
  let n := match (alookup kw "n").getD PVal.none with
    | PVal.int m => m.toNat
    | _ => 0
  let parts := chunksParts (seqElems h it) n
  let r1 := buildStarmaps h task parts
  let r2 := r1.1.allocList r1.2
  group.init r2.1 [PVal.ref r2.2] []

/-- The member values of a composite's stored `tasks` sequence. -/
def groupMembers (h : Heap) (a : Nat) : List PVal :=
  seqElems h ((Sig.attr h a "tasks").getD PVal.none)

/-- The stored element slice of a map/starmap instance
(`kwargs['it']`). -/
def mapSlice (h : Heap) (a : Nat) : List PVal :=
  seqElems h ((alookup (derefDict h (Sig.item h a "kwargs")) "it").getD PVal.none)

/-- The element slices of a group's members, in member order. -/
def slicesOf (h : Heap) (a : Nat) : List (List PVal) :=
  (groupMembers h a).map (fun v => match v with
    | PVal.ref m => mapSlice h m
    | _ => [])

/-- The contents of a signature's stored options mapping. -/
def optionsContents (h : Heap) (a : Nat) : List (String × PVal) :=
  derefDict h (Sig.item h a "options")

/-- The contents of a signature's stored kwargs mapping. -/
def kwargsContents (h : Heap) (a : Nat) : List (String × PVal) :=
  derefDict h (Sig.item h a "kwargs")

/-- Entry-list equality with `PVal.beq` on the values. -/
def entriesBeq : List (String × PVal) → List (String × PVal) → Bool
  | [], [] => true
  | (k1, v1) :: r1, (k2, v2) :: r2 =>
    k1 == k2 && PVal.beq v1 v2 && entriesBeq r1 r2
  | _, _ => false

/-- One-level value equality, as Python `==` compares two record fields
whose leaf values coincide: immutable values structurally, references by
identity or by the contents of the objects they denote. -/
def valEq1 (h : Heap) (x y : PVal) : Bool :=
  match x, y with
  | PVal.ref a, PVal.ref b =>
    (a == b) ||
    (match h.get a, h.get b with
     | some (Obj.dict d1), some (Obj.dict d2) => entriesBeq d1 d2
     | some (Obj.pylist l1), some (Obj.pylist l2) => PVal.beqList l1 l2
     | _, _ => false)
  | _, _ => PVal.beq x y

/-- Field-wise equality of two descriptors over the six wire fields. -/
def fieldwiseEq (h : Heap) (a b : Nat) : Bool :=
  ["task", "args", "kwargs", "options", "subtask_type", "immutable"].all
    (fun k => valEq1 h (Sig.item h a k) (Sig.item h b k))

/-- The serialize-then-deserialize round trip of one instance, checked for
field-wise equality and for the class the dispatch reconstructs. -/
def roundtripsTo (h : Heap) (a : Nat) (c : SigClass) : Bool :=
  match Signature.from_dict h (Signature.reduceRecord h a) with
  | Except.ok (h', b) => fieldwiseEq h' a b && (classOf h' b == some c)
  | Except.error _ => false

/-- The shape data of one group member used by the `skew` theorem: its
signature address, class, entries, attributes, and the address and contents
of its options mapping. -/
structure MemberInfo where
  sigAddr : Nat
  cls : SigClass
  entries : List (String × PVal)
  attrs : List (String × PVal)
  optAddr : Nat
  optContents : List (String × PVal)

/-- Member `m`'s heap cells look as `MemberInfo` records them. -/
def memberWF (h : Heap) (m : MemberInfo) : Prop :=
  h.get m.sigAddr = some (Obj.sig m.cls m.entries m.attrs) ∧
  alookup m.entries "options" = some (PVal.ref m.optAddr) ∧
  h.get m.optAddr = some (Obj.dict m.optContents)

/-! ### Concrete scenarios

Heaps built by the constructors above, used by the counterexample theorems
and the witnesses. -/

def emptyHeap : Heap := ⟨[]⟩

/-- Three plain signatures `a`, `b`, `c` in one heap. -/
def exA : Heap × Nat :=
  Signature.init emptyHeap SigClass.signature "a" [] [] [] PVal.none false

def exB : Heap × Nat :=
  Signature.init exA.1 SigClass.signature "b" [] [] [] PVal.none false

def exC : Heap × Nat :=
  Signature.init exB.1 SigClass.signature "c" [] [] [] PVal.none false

/-- A mutable signature with stored args `('a', 'b')`, one stored kwarg and
two stored options. -/
def exM : Heap × Nat :=
  Signature.init emptyHeap SigClass.signature "t" [PVal.str "a", PVal.str "b"]
    [("k1", PVal.int 1)] [("o1", PVal.int 1), ("o2", PVal.int 2)] PVal.none false

/-- The immutable twin of `exM`. -/
def exMI : Heap × Nat :=
  Signature.init emptyHeap SigClass.signature "t" [PVal.str "a", PVal.str "b"]
    [("k1", PVal.int 1)] [("o1", PVal.int 1), ("o2", PVal.int 2)] PVal.none true

/-- Instances of every variant, for the serialization round trips: a chain
and a group over `exA`/`exB`, a chord with a plain body, and map, starmap
and chunk instances over a task `t`. -/
def exChain : Heap × Nat :=
  chain.init exC.1 [PVal.ref exA.2, PVal.ref exB.2] [("opt", PVal.int 1)]

def exGroup : Heap × Nat :=
  group.init exChain.1 [PVal.ref exA.2, PVal.ref exB.2] []

def exHdr : Heap × Nat := exGroup.1.allocList [PVal.ref exA.2, PVal.ref exB.2]

def exBody : Heap × Nat :=
  Signature.init exHdr.1 SigClass.signature "d" [] [] [] PVal.none false

def exChord : Heap × Nat :=
  chord.init exBody.1 (PVal.ref exHdr.2) (PVal.ref exBody.2) []

def exT : Heap × Nat :=
  Signature.init exChord.1 SigClass.signature "t" [] [] [] PVal.none false

def exXmap : Heap × Nat :=
  xmap.init exT.1 (PVal.ref exT.2) (PVal.tup [PVal.int 1, PVal.int 2]) []

def exXstar : Heap × Nat :=
  xstarmap.init exXmap.1 (PVal.ref exT.2) (PVal.tup [PVal.int 1, PVal.int 2]) []

def exChunks : Heap × Nat :=
  chunks.init exXstar.1 (PVal.ref exT.2)
    (PVal.tup ((List.range 10).map (fun i => PVal.int (Int.ofNat i))))
    (PVal.int 3) []

/-- A chain built from a single list object (`chain([A, B])`): the source's
single-sequence construction path stores the list itself as the task
sequence. -/
def exChainLlist : Heap × Nat :=
  exChunks.1.allocList [PVal.ref exA.2, PVal.ref exB.2]

def exChainL : Heap × Nat := chain.init exChainLlist.1 [PVal.ref exChainLlist.2] []

/-- A fresh plain signature cloned with no overrides and then mutated
through `set` (the frame-effect scenario): original at address 2, its
kwargs dict at 0 and options dict at 1. -/
def c2orig : Heap × Nat :=
  Signature.init emptyHeap SigClass.signature "t" [] [] [] PVal.none false

/-- Chord-clone scenarios: a header list over one plain signature, a
bodiless chord, a chord with a plain body, and a chord whose body carries an
unregistered `subtask_type`. -/
def c7sigA : Heap × Nat :=
  Signature.init emptyHeap SigClass.signature "a" [] [] [] PVal.none false

def c7hdr : Heap × Nat := c7sigA.1.allocList [PVal.ref c7sigA.2]

def c7noBody : Heap × Nat := chord.init c7hdr.1 (PVal.ref c7hdr.2) PVal.none []

def c7body : Heap × Nat :=
  Signature.init c7noBody.1 SigClass.signature "d" [] [] [] PVal.none false

def c7chord : Heap × Nat :=
  chord.init c7body.1 (PVal.ref c7hdr.2) (PVal.ref c7body.2) []

def c7bogus : Heap × Nat :=
  Signature.init c7chord.1 SigClass.signature "e" [] [] [] (PVal.str "bogus") false

def c7chordBogus : Heap × Nat :=
  chord.init c7bogus.1 (PVal.ref c7hdr.2) (PVal.ref c7bogus.2) []

/-- A signature whose `link` option already holds the callback `'cb'`. -/
def c8list : Heap × Nat := emptyHeap.allocList [PVal.str "cb"]

def c8sig : Heap × Nat :=
  Signature.init c8list.1 SigClass.signature "t" [] []
    [("link", PVal.ref c8list.2)] PVal.none false

/-- Three distinct plain members and a group over them (the `skew`
scenario). -/
def c6t1 : Heap × Nat :=
  Signature.init emptyHeap SigClass.signature "t" [] [] [] PVal.none false

def c6t2 : Heap × Nat :=
  Signature.init c6t1.1 SigClass.signature "t" [] [] [] PVal.none false

def c6t3 : Heap × Nat :=
  Signature.init c6t2.1 SigClass.signature "t" [] [] [] PVal.none false

def c6list : Heap × Nat :=
  c6t3.1.allocList [PVal.ref c6t1.2, PVal.ref c6t2.2, PVal.ref c6t3.2]

def c6grp : Heap × Nat := group.init c6list.1 [PVal.ref c6list.2] []

/-- The member shapes of `c6grp`: signatures at 2, 5, 8 with options dicts
at 1, 4, 7, all initially empty. -/
def c6ms : List MemberInfo :=
  [⟨2, SigClass.signature,
    [("task", PVal.str "t"), ("args", PVal.tup []), ("kwargs", PVal.ref 0),
     ("options", PVal.ref 1), ("subtask_type", PVal.none),
     ("immutable", PVal.bool false)], [("_type", PVal.none)], 1, []⟩,
   ⟨5, SigClass.signature,
    [("task", PVal.str "t"), ("args", PVal.tup []), ("kwargs", PVal.ref 3),
     ("options", PVal.ref 4), ("subtask_type", PVal.none),
     ("immutable", PVal.bool false)], [("_type", PVal.none)], 4, []⟩,
   ⟨8, SigClass.signature,
    [("task", PVal.str "t"), ("args", PVal.tup []), ("kwargs", PVal.ref 6),
     ("options", PVal.ref 7), ("subtask_type", PVal.none),
     ("immutable", PVal.bool false)], [("_type", PVal.none)], 7, []⟩]

/-- Separation of the members' cells: distinct options dicts, none of which
is a member's signature cell. -/
def skewSep (ms : List MemberInfo) : Prop :=
  (ms.map MemberInfo.optAddr).Nodup ∧
  ∀ m ∈ ms, ∀ m' ∈ ms, m.optAddr ≠ m'.sigAddr

/-- A chord with a plain body whose options carry no `task_id` yet (the
invocation scenario), and a second body whose options already carry one. -/
def c9body : Heap × Nat :=
  Signature.init c7hdr.1 SigClass.signature "d" [] [] [] PVal.none false

def c9chord : Heap × Nat :=
  chord.init c9body.1 (PVal.ref c7hdr.2) (PVal.ref c9body.2) []

def c9body2 : Heap × Nat :=
  Signature.init c9chord.1 SigClass.signature "d2" [] []
    [("task_id", PVal.str "old-id")] PVal.none false

/-! ### Association-list lemmas -/

theorem alookup_aset_self (d : List (String × PVal)) (k : String) (v : PVal) :
    alookup (aset d k v) k = some v := by
  induction d with
  | nil => simp [aset, alookup]
  | cons kv rest ih =>
    obtain ⟨k', v'⟩ := kv
    by_cases hk : k' = k <;> simp [aset, alookup, hk, ih]

theorem alookup_aset_ne (d : List (String × PVal)) (k k' : String) (v : PVal)
    (hne : k ≠ k') : alookup (aset d k v) k' = alookup d k' := by
  induction d with
  | nil => simp [aset, alookup, hne]
  | cons kv rest ih =>
    obtain ⟨k0, v0⟩ := kv
    by_cases hk : k0 = k
    · subst hk
      simp [aset, alookup, hne]
    · simp [aset, alookup, hk, ih]

theorem aupdate_cons (d : List (String × PVal)) (x : String × PVal)
    (u : List (String × PVal)) :
    aupdate d (x :: u) = aupdate (aset d x.1 x.2) u := rfl

theorem alookup_append (d1 d2 : List (String × PVal)) (k : String) :
    alookup (d1 ++ d2) k = oorElse (alookup d1 k) (alookup d2 k) := by
  induction d1 with
  | nil => simp [alookup, oorElse]
  | cons kv rest ih =>
    obtain ⟨k0, v0⟩ := kv
    by_cases hk : k0 = k <;> simp [alookup, hk, ih, oorElse]

theorem alookupLast_cons (x : String × PVal) (u : List (String × PVal))
    (k : String) :
    alookupLast (x :: u) k =
      oorElse (alookupLast u k) (if x.1 = k then some x.2 else Option.none) := by
  simp only [alookupLast, List.reverse_cons, alookup_append]
  cases alookup u.reverse k <;> simp [alookup, oorElse]

theorem alookup_aupdate (d u : List (String × PVal)) (k : String) :
    alookup (aupdate d u) k = oorElse (alookupLast u k) (alookup d k) := by
  induction u generalizing d with
  | nil => simp [aupdate, alookupLast, alookup, oorElse]
  | cons x u ih =>
    rw [aupdate_cons, ih, alookupLast_cons]
    cases hL : alookupLast u k with
    | some v => simp [oorElse]
    | none =>
      by_cases hk : x.1 = k
      · simp [oorElse, hk, hk ▸ alookup_aset_self d x.1 x.2]
      · simp [oorElse, hk, alookup_aset_ne d x.1 k x.2 hk]

theorem aset_of_alookup_eq (d : List (String × PVal)) (k : String) (v : PVal)
    (hv : alookup d k = some v) : aset d k v = d := by
  induction d with
  | nil => simp [alookup] at hv
  | cons kv rest ih =>
    obtain ⟨k0, v0⟩ := kv
    by_cases hk : k0 = k
    · subst hk
      simp [alookup] at hv
      simp [aset, hv]
    · simp [alookup, hk] at hv
      simp [aset, hk, ih hv]

/-! ### Heap lemmas -/

theorem Heap.lt_of_get (h : Heap) (x : Nat) (o : Obj) (hx : h.get x = some o) :
    x < h.objs.length := by
  by_contra hlt
  rw [Heap.get, List.get?_eq_none.mpr (Nat.le_of_not_lt hlt)] at hx
  exact Option.noConfusion hx

theorem Heap.get_alloc_self (h : Heap) (o : Obj) :
    (h.alloc o).1.get (h.alloc o).2 = some o := by
  simp [Heap.alloc, Heap.get, List.get?_concat_length]

theorem Heap.get_alloc_lt (h : Heap) (o o' : Obj) (x : Nat)
    (hx : h.get x = some o') : (h.alloc o).1.get x = some o' := by
  have hlt := Heap.lt_of_get h x o' hx
  rw [Heap.alloc, Heap.get] at *
  rw [List.get?_append hlt]
  exact hx

theorem Heap.get_ext (h h' : Heap) (ext : List Obj) (he : h'.objs = h.objs ++ ext)
    (x : Nat) (o : Obj) (hx : h.get x = some o) : h'.get x = some o := by
  have hlt := Heap.lt_of_get h x o hx
  rw [Heap.get, he, List.get?_append hlt]
  exact hx

theorem Heap.get_write_ne (h : Heap) (b : Nat) (o : Obj) (x : Nat)
    (hne : x ≠ b) : (h.write b o).get x = h.get x := by
  simp only [Heap.write, Heap.get, List.get?_eq_getElem?]
  exact List.getElem?_set_ne (fun he => hne he.symm)

theorem Heap.get_write_self (h : Heap) (b : Nat) (o : Obj)
    (hb : b < h.objs.length) : (h.write b o).get b = some o := by
  simp only [Heap.write, Heap.get, List.get?_eq_getElem?]
  exact List.getElem?_set_eq_of_lt o hb

theorem Heap.write_length (h : Heap) (b : Nat) (o : Obj) :
    (h.write b o).objs.length = h.objs.length := by
  simp [Heap.write]

theorem Heap.write_same (h : Heap) (b : Nat) (o : Obj)
    (hb : h.get b = some o) : h.write b o = h := by
  rw [Heap.write]
  cases h with
  | mk objs =>
    simp only [Heap.mk.injEq]
    have hg : objs[b]? = some o := by
      rw [← List.get?_eq_getElem?]
      exact hb
    clear hb
    induction objs generalizing b with
    | nil => simp at hg
    | cons x xs ih =>
      cases b with
      | zero =>
        simp at hg
        simp [List.set, hg]
      | succ n =>
        simp at hg
        simp [List.set, ih n hg]

/-! ### Claim theorems -/

/-- C1: `Signature._merge` of the overrides into the stored fields — an
immutable descriptor keeps its stored args and kwargs unchanged (the kwargs
even as the same mapping object) and only overlay-merges the options
override into a fresh copy of the stored options; a mutable descriptor
prepends the args override before the stored args and overlay-merges the
kwargs and options overrides, override winning per key (the per-key reading
of `aupdate` is part of the statement). -/
theorem c1_merge_semantics
    (h : Heap) (a ka oa : Nat) (cls : SigClass)
    (e ats : List (String × PVal)) (sargs : List PVal)
    (K O : List (String × PVal)) (m : Bool)
    (hA : h.get a = some (Obj.sig cls e ats))
    (hargs : alookup e "args" = some (PVal.tup sargs))
    (hkw : alookup e "kwargs" = some (PVal.ref ka))
    (hopt : alookup e "options" = some (PVal.ref oa))
    (himm : alookup e "immutable" = some (PVal.bool m))
    (hK : h.get ka = some (Obj.dict K))
    (hO : h.get oa = some (Obj.dict O))
    (args : List PVal) (kwargs options : List (String × PVal)) :
    (Signature._merge h a args kwargs options).2.1 =
        PVal.tup (if m then sargs else args ++ sargs) ∧
    derefDict (Signature._merge h a args kwargs options).1
        (Signature._merge h a args kwargs options).2.2.1 =
        (if m then K else aupdate K kwargs) ∧
    derefDict (Signature._merge h a args kwargs options).1
        (Signature._merge h a args kwargs options).2.2.2 = aupdate O options ∧
    (m = true → (Signature._merge h a args kwargs options).2.2.1 = PVal.ref ka) ∧
    (∀ k, alookup (aupdate K kwargs) k =
        oorElse (alookupLast kwargs k) (alookup K k)) ∧
    (∀ k, alookup (aupdate O options) k =
        oorElse (alookupLast options k) (alookup O k)) := by
  have hOd : derefDict h (PVal.ref oa) = O := by simp [derefDict, hO]
  have hKd : derefDict h (PVal.ref ka) = K := by simp [derefDict, hK]
  cases m with
  | true =>
    have heq : Signature._merge h a args kwargs options =
        ((h.allocDict (aupdate O options)).1, PVal.tup sargs, PVal.ref ka,
          PVal.ref (h.allocDict (aupdate O options)).2) := by
      simp [Signature._merge, Sig.item, Sig.entries, hA, himm, hargs, hkw,
        hopt, PVal.truthy, hOd]
    rw [heq]
    refine ⟨by simp, ?_, ?_, fun _ => rfl,
      fun k => alookup_aupdate K kwargs k, fun k => alookup_aupdate O options k⟩
    · have := Heap.get_alloc_lt h (Obj.dict (aupdate O options)) (Obj.dict K) ka hK
      simp [derefDict, Heap.allocDict, this]
    · simp [derefDict, Heap.allocDict, Heap.get_alloc_self h (Obj.dict (aupdate O options))]
  | false =>
    have hcond : (Sig.item h a "immutable").truthy h = false := by
      simp [Sig.item, Sig.entries, hA, himm, PVal.truthy]
    by_cases hkwE : kwargs.isEmpty
    · by_cases hoptE : options.isEmpty
      · have heq : Signature._merge h a args kwargs options =
            (h, (if args.isEmpty then PVal.tup sargs
                  else PVal.tup (args ++ sargs)), PVal.ref ka, PVal.ref oa) := by
          simp [Signature._merge, Sig.item, Sig.entries, hA, himm, hargs, hkw,
            hopt, PVal.truthy, hkwE, hoptE, seqElems]
        rw [heq]
        have hkwNil : kwargs = [] := List.isEmpty_iff.mp hkwE
        have hoptNil : options = [] := List.isEmpty_iff.mp hoptE
        subst hkwNil hoptNil
        refine ⟨?_, ?_, ?_, fun hmt => Bool.noConfusion hmt,
          fun k => alookup_aupdate K [] k, fun k => alookup_aupdate O [] k⟩
        · by_cases hae : args.isEmpty
          · simp [hae, List.isEmpty_iff.mp hae]
          · simp [hae]
        · simpa [aupdate] using hKd
        · simpa [aupdate] using hOd
      · have heq : Signature._merge h a args kwargs options =
            ((h.allocDict (aupdate O options)).1,
              (if args.isEmpty then PVal.tup sargs
                else PVal.tup (args ++ sargs)), PVal.ref ka,
              PVal.ref (h.allocDict (aupdate O options)).2) := by
          simp [Signature._merge, Sig.item, Sig.entries, hA, himm, hargs, hkw,
            hopt, PVal.truthy, hkwE, hoptE, seqElems, hOd]
        rw [heq]
        have hkwNil : kwargs = [] := List.isEmpty_iff.mp hkwE
        subst hkwNil
        refine ⟨?_, ?_, ?_, fun hmt => Bool.noConfusion hmt,
          fun k => alookup_aupdate K [] k, fun k => alookup_aupdate O options k⟩
        · by_cases hae : args.isEmpty
          · simp [hae, List.isEmpty_iff.mp hae]
          · simp [hae]
        · have hget := Heap.get_alloc_lt h (Obj.dict (aupdate O options)) (Obj.dict K) ka hK
          simp only [derefDict, Heap.allocDict]
          rw [hget]
          rfl
        · simp [derefDict, Heap.allocDict,
            Heap.get_alloc_self h (Obj.dict (aupdate O options))]
    · by_cases hoptE : options.isEmpty
      · have heq : Signature._merge h a args kwargs options =
            ((h.allocDict (aupdate K kwargs)).1,
              (if args.isEmpty then PVal.tup sargs
                else PVal.tup (args ++ sargs)),
              PVal.ref (h.allocDict (aupdate K kwargs)).2, PVal.ref oa) := by
          simp [Signature._merge, Sig.item, Sig.entries, hA, himm, hargs, hkw,
            hopt, PVal.truthy, hkwE, hoptE, seqElems, hKd]
        rw [heq]
        have hoptNil : options = [] := List.isEmpty_iff.mp hoptE
        subst hoptNil
        refine ⟨?_, ?_, ?_, fun hmt => Bool.noConfusion hmt,
          fun k => alookup_aupdate K kwargs k, fun k => alookup_aupdate O [] k⟩
        · by_cases hae : args.isEmpty
          · simp [hae, List.isEmpty_iff.mp hae]
          · simp [hae]
        · simp [derefDict, Heap.allocDict,
            Heap.get_alloc_self h (Obj.dict (aupdate K kwargs))]
        · have hget := Heap.get_alloc_lt h (Obj.dict (aupdate K kwargs)) (Obj.dict O) oa hO
          simp only [derefDict, Heap.allocDict]
          rw [hget]
          rfl
      · have heq : Signature._merge h a args kwargs options =
            (((h.allocDict (aupdate K kwargs)).1.allocDict (aupdate O options)).1,
              (if args.isEmpty then PVal.tup sargs
                else PVal.tup (args ++ sargs)),
              PVal.ref (h.allocDict (aupdate K kwargs)).2,
              PVal.ref ((h.allocDict (aupdate K kwargs)).1.allocDict
                (aupdate O options)).2) := by
          have hOd1 : derefDict (h.allocDict (aupdate K kwargs)).1 (PVal.ref oa) = O := by
            have := Heap.get_alloc_lt h (Obj.dict (aupdate K kwargs)) (Obj.dict O) oa hO
            simp [derefDict, Heap.allocDict, this]
          simp [Signature._merge, Sig.item, Sig.entries, hA, himm, hargs, hkw,
            hopt, PVal.truthy, hkwE, hoptE, seqElems, hKd, hOd1]
        rw [heq]
        refine ⟨?_, ?_, ?_, fun hmt => Bool.noConfusion hmt,
          fun k => alookup_aupdate K kwargs k, fun k => alookup_aupdate O options k⟩
        · by_cases hae : args.isEmpty
          · simp [hae, List.isEmpty_iff.mp hae]
          · simp [hae]
        · have hget := Heap.get_alloc_lt (h.allocDict (aupdate K kwargs)).1
            (Obj.dict (aupdate O options)) (Obj.dict (aupdate K kwargs))
            (h.allocDict (aupdate K kwargs)).2
            (Heap.get_alloc_self h (Obj.dict (aupdate K kwargs)))
          simp only [Heap.allocDict] at hget
          simp only [derefDict, Heap.allocDict]
          rw [hget]
          rfl
        · have hself := Heap.get_alloc_self (h.allocDict (aupdate K kwargs)).1
            (Obj.dict (aupdate O options))
          simp only [Heap.allocDict] at hself
          simp only [derefDict, Heap.allocDict]
          rw [hself]

/-- Witness for C1 at a concrete mutable descriptor: stored args
`('a','b')` merged with args override `('x',)` yield `('x','a','b')`, and
the options override wins per key over the stored options. -/
theorem c1_merge_witness :
    (Signature._merge exM.1 exM.2 [PVal.str "x"] [] [("o2", PVal.int 9)]).2.1 =
      PVal.tup [PVal.str "x", PVal.str "a", PVal.str "b"] ∧
    derefDict (Signature._merge exM.1 exM.2 [PVal.str "x"] [] [("o2", PVal.int 9)]).1
      (Signature._merge exM.1 exM.2 [PVal.str "x"] [] [("o2", PVal.int 9)]).2.2.2 =
      [("o1", PVal.int 1), ("o2", PVal.int 9)] := by
  have hth := c1_merge_semantics exM.1 exM.2 0 1 SigClass.signature
      [("task", PVal.str "t"), ("args", PVal.tup [PVal.str "a", PVal.str "b"]),
       ("kwargs", PVal.ref 0), ("options", PVal.ref 1),
       ("subtask_type", PVal.none), ("immutable", PVal.bool false)]
      [("_type", PVal.none)] [PVal.str "a", PVal.str "b"]
      [("k1", PVal.int 1)] [("o1", PVal.int 1), ("o2", PVal.int 2)] false
      rfl rfl rfl rfl rfl rfl rfl [PVal.str "x"] [] [("o2", PVal.int 9)]
  exact ⟨hth.1.trans (by rfl), hth.2.2.1.trans (by rfl)⟩

/-- C2 evaluated at its failing input: `clone()` with no overrides returns a
new instance whose kwargs and options fields are the very mapping objects of
the original (not copies), so `set` on the clone writes `countdown` into the
original's stored options. -/
theorem c2_clone_set_mutates_original :
    optionsContents c2orig.1 c2orig.2 = [] ∧
    ∃ h1 s2,
      Signature.clone c2orig.1 c2orig.2 [] [] [] = Except.ok (h1, s2) ∧
      s2 ≠ c2orig.2 ∧
      Sig.item h1 s2 "options" = Sig.item h1 c2orig.2 "options" ∧
      Sig.item h1 s2 "kwargs" = Sig.item h1 c2orig.2 "kwargs" ∧
      optionsContents
        ((Signature.set h1 s2 Option.none [("countdown", PVal.int 10)]).1)
        c2orig.2 = [("countdown", PVal.int 10)] := by
  exact ⟨rfl, _, _, rfl, by decide, rfl, rfl, rfl⟩

/-- C3 evaluated: `(A|B)|C` (and so `A|B|C`) flattens into one chain with
tasks `[A, B, C]`, but `A|(B|C)` — a plain signature composed with a chain —
raises `AttributeError('tasks')`, because `__or__` reads `self.tasks` which a
plain `Signature` does not have. -/
theorem c3_or_flattening_eval :
    (∃ h1 ab, Signature.orOp exC.1 exA.2 exB.2 = Except.ok (h1, ab) ∧
      ∃ h2 abc, Signature.orOp h1 ab exC.2 = Except.ok (h2, abc) ∧
        classOf h2 abc = some SigClass.chainC ∧
        groupMembers h2 abc = [PVal.ref exA.2, PVal.ref exB.2, PVal.ref exC.2]) ∧
    (∃ h3 bc, Signature.orOp exC.1 exB.2 exC.2 = Except.ok (h3, bc) ∧
      Signature.orOp h3 exA.2 bc = Except.error (PyErr.attributeError "tasks")) := by
  exact ⟨⟨_, _, rfl, _, _, rfl, rfl, rfl⟩, ⟨_, _, rfl, rfl⟩⟩

/-- C7 evaluated: (a) cloning a bodiless chord completes and leaves the body
absent; (b) a body whose own clone fails (unregistered `subtask_type`, a
`KeyError` inside `from_dict`) degrades leniently, keeping the shared body
reference; (c) when the body's clone succeeds, the cloned chord's body is a
distinct object but shares the original body's options mapping — `set` on
the clone's body writes into the original chord's body. -/
theorem c7_chord_clone_eval :
    (∃ h1 c2, cloneDispatch 1 c7noBody.1 c7noBody.2 [] [] [] =
        Except.ok (h1, c2) ∧ chord.bodyProp h1 c2 = PVal.none) ∧
    (∃ h1 c2, cloneDispatch 1 c7chordBogus.1 c7chordBogus.2 [] [] [] =
        Except.ok (h1, c2) ∧ chord.bodyProp h1 c2 = PVal.ref c7bogus.2) ∧
    (∃ h1 c2 b2, cloneDispatch 1 c7chord.1 c7chord.2 [] [] [] =
        Except.ok (h1, c2) ∧
      chord.bodyProp h1 c2 = PVal.ref b2 ∧ b2 ≠ c7body.2 ∧
      Sig.item h1 b2 "options" = Sig.item h1 c7body.2 "options" ∧
      optionsContents
        ((Signature.set h1 b2 Option.none [("countdown", PVal.int 7)]).1)
        c7body.2 = [("countdown", PVal.int 7)]) := by
  refine ⟨⟨_, _, rfl, rfl⟩, ⟨_, _, rfl, rfl⟩, ⟨_, _, _, rfl, rfl, by decide, rfl, rfl⟩⟩

/-- C8: `append_to_list_option` — and so `link` and `link_error`, which are
this operation at the keys `'link'` and `'link_error'` — returns the
callback argument itself, both when the callback is appended (list created
or extended) and in the duplicate case, where the stored list already holds
an equal entry and the heap is returned untouched. -/
theorem c8_link_returns_callback
    (h : Heap) (a o : Nat) (cls : SigClass)
    (e ats d : List (String × PVal)) (key : String) (cb : PVal)
    (hA : h.get a = some (Obj.sig cls e ats))
    (hOpt : alookup e "options" = some (PVal.ref o))
    (hD : h.get o = some (Obj.dict d))
    (hKey : alookup d key = Option.none ∨
      ∃ la items, alookup d key = some (PVal.ref la) ∧
        h.get la = some (Obj.pylist items)) :
    (∃ h', Signature.append_to_list_option h a key cb = Except.ok (h', cb)) ∧
    (∀ la items, alookup d key = some (PVal.ref la) →
      h.get la = some (Obj.pylist items) → containsVal items cb = true →
      Signature.append_to_list_option h a key cb = Except.ok (h, cb)) ∧
    Signature.link h a cb = Signature.append_to_list_option h a "link" cb ∧
    Signature.link_error h a cb =
      Signature.append_to_list_option h a "link_error" cb := by
  have hitem : Sig.item h a "options" = PVal.ref o := by
    simp [Sig.item, Sig.entries, hA, hOpt]
  have ho : o < h.objs.length := Heap.lt_of_get h o _ hD
  refine ⟨?_, ?_, rfl, rfl⟩
  · rcases hKey with hnone | ⟨la, items, hla, hlist⟩
    · have hgetla :
          ((h.allocList []).1.write o
              (Obj.dict (aset d key (PVal.ref (h.allocList []).2)))).get
            (h.allocList []).2 = some (Obj.pylist []) := by
        rw [Heap.get_write_ne _ _ _ _ (by
          intro heq
          have heq' : h.objs.length = o := heq
          rw [heq'] at ho
          exact absurd ho (lt_irrefl o))]
        exact Heap.get_alloc_self h (Obj.pylist [])
      refine ⟨((h.allocList []).1.write o
          (Obj.dict (aset d key (PVal.ref (h.allocList []).2)))).write
          (h.allocList []).2 (Obj.pylist [cb]), ?_⟩
      simp only [Signature.append_to_list_option, hitem, hD, hnone, hgetla,
        containsVal, List.any_nil, Bool.false_eq_true, if_false,
        List.nil_append]
    · cases hc : containsVal items cb with
      | true =>
        exact ⟨h, by
          simp only [Signature.append_to_list_option, hitem, hD, hla, hlist,
            hc, if_true]⟩
      | false =>
        exact ⟨h.write la (Obj.pylist (items ++ [cb])), by
          simp only [Signature.append_to_list_option, hitem, hD, hla, hlist,
            hc, Bool.false_eq_true, if_false]⟩
  · intro la items hla hlist hc
    simp only [Signature.append_to_list_option, hitem, hD, hla, hlist, hc,
      if_true]

/-- Witness for C8: on a signature whose `link` list already holds `'cb'`,
linking `'cb'` again returns the callback itself and leaves the heap
untouched (the duplicate case); by the same theorem, `link` is
`append_to_list_option` at the key `'link'`. -/
theorem c8_link_witness :
    Signature.link c8sig.1 c8sig.2 (PVal.str "cb") =
      Except.ok (c8sig.1, PVal.str "cb") := by
  have hth := c8_link_returns_callback c8sig.1 c8sig.2 2 SigClass.signature
      [("task", PVal.str "t"), ("args", PVal.tup []), ("kwargs", PVal.ref 1),
       ("options", PVal.ref 2), ("subtask_type", PVal.none),
       ("immutable", PVal.bool false)] [("_type", PVal.none)]
      [("link", PVal.ref 0)] "link" (PVal.str "cb")
      rfl rfl rfl (Or.inr ⟨0, [PVal.str "cb"], rfl, rfl⟩)
  rw [hth.2.2.1]
  exact hth.2.1 0 [PVal.str "cb"] rfl rfl rfl

/-- C10: on a bodiless chord — a valid, constructible state — `link` and
`link_error` are forwarded unconditionally to the absent body (`None`), so
they raise an `AttributeError` rather than attaching the callback or
returning it. -/
theorem c10_bodiless_chord_link_raises
    (h : Heap) (a kw : Nat) (e ats kd : List (String × PVal))
    (hA : h.get a = some (Obj.sig SigClass.chordC e ats))
    (hKw : alookup e "kwargs" = some (PVal.ref kw))
    (hKd : h.get kw = some (Obj.dict kd))
    (hBody : (alookup kd "body").getD PVal.none = PVal.none) :
    ∀ fuel cb, linkDispatch fuel "link" h a cb =
        Except.error (PyErr.attributeError "link") ∧
      linkDispatch fuel "link_error" h a cb =
        Except.error (PyErr.attributeError "link_error") := by
  intro fuel cb
  have hb : chord.bodyProp h a = PVal.none := by
    simp [chord.bodyProp, Sig.item, Sig.entries, hA, hKw, derefDict, hKd, hBody]
  constructor <;>
    simp [linkDispatch, classOf, hA, hb]

/-- Witness for C10 at the concrete bodiless chord `c7noBody`. -/
theorem c10_bodiless_witness :
    linkDispatch 1 "link" c7noBody.1 c7noBody.2 (PVal.str "cb") =
      Except.error (PyErr.attributeError "link") ∧
    linkDispatch 1 "link_error" c7noBody.1 c7noBody.2 (PVal.str "cb") =
      Except.error (PyErr.attributeError "link_error") :=
  c10_bodiless_chord_link_raises c7noBody.1 c7noBody.2 4 _ _ _
    rfl rfl rfl rfl 1 (PVal.str "cb")

/-- C9: invoking a chord with the eager toggle off mutates the chord in
place — the given-or-stored body is written back into the stored kwargs and
the generated correlation id is written into the stored body's options under
`task_id` — and returns the handle keyed by that id; a second invocation of
the same chord object finds the id and reuses it (same heap, the second
fresh id unused); and a passed body replaces the stored one in the stored
kwargs. -/
theorem c9_chord_call_mutates_and_reuses
    (h : Heap) (a kw b ob : Nat) (bcls : SigClass)
    (e ats kd be bats od : List (String × PVal)) (u1 : String)
    (hA : h.get a = some (Obj.sig SigClass.chordC e ats))
    (hKw : alookup e "kwargs" = some (PVal.ref kw))
    (hKd : h.get kw = some (Obj.dict kd))
    (hBody : alookup kd "body" = some (PVal.ref b))
    (hB : h.get b = some (Obj.sig bcls be bats))
    (hBo : alookup be "options" = some (PVal.ref ob))
    (hOd : h.get ob = some (Obj.dict od))
    (hNoId : alookup od "task_id" = Option.none)
    (hKwOb : kw ≠ ob) :
    chord.call h a Option.none false u1 =
      Except.ok (h.write ob (Obj.dict (aset od "task_id" (PVal.str u1))),
        PVal.str u1) ∧
    (∀ u2, chord.call
        (h.write ob (Obj.dict (aset od "task_id" (PVal.str u1)))) a
        Option.none false u2 =
      Except.ok (h.write ob (Obj.dict (aset od "task_id" (PVal.str u1))),
        PVal.str u1)) ∧
    (∀ b2 ob2 b2cls b2e b2ats od2 tid,
      h.get b2 = some (Obj.sig b2cls b2e b2ats) →
      alookup b2e "options" = some (PVal.ref ob2) →
      h.get ob2 = some (Obj.dict od2) →
      alookup od2 "task_id" = some tid →
      b2 ≠ kw → ob2 ≠ kw →
      chord.call h a (some b2) false u1 =
        Except.ok (h.write kw (Obj.dict (aset kd "body" (PVal.ref b2))), tid)) := by
  have hbkw : b ≠ kw := by
    intro hbe
    rw [hbe, hKd] at hB
    simp at hB
  have hobb : ob ≠ b := by
    intro hbe
    rw [hbe, hB] at hOd
    simp at hOd
  have hkwlt : kw < h.objs.length := Heap.lt_of_get h kw _ hKd
  have hWriteBack : dictWrite h (PVal.ref kw) "body" (PVal.ref b) = h := by
    simp only [dictWrite, hKd, aset_of_alookup_eq kd "body" (PVal.ref b) hBody]
    exact Heap.write_same h kw _ hKd
  have hkwargs : Sig.item h a "kwargs" = PVal.ref kw := by
    simp [Sig.item, Sig.entries, hA, hKw]
  refine ⟨?_, ?_, ?_⟩
  · simp [chord.call, derefDict, hKd, hBody, hWriteBack, Sig.item,
      Sig.entries, hA, hKw, hB, hBo, hOd, hNoId]
  · intro u2
    have hh1 : ∀ x ox, x ≠ ob → h.get x = some ox →
        (h.write ob (Obj.dict (aset od "task_id" (PVal.str u1)))).get x = some ox := by
      intro x ox hx hgx
      rw [Heap.get_write_ne h ob _ x hx]
      exact hgx
    have hA1 := hh1 a _ (by
      intro hae
      rw [hae, hOd] at hA
      simp at hA) hA
    have hKd1 := hh1 kw _ hKwOb hKd
    have hB1 := hh1 b _ (fun hbe => hobb hbe.symm) hB
    have hOd1 : (h.write ob (Obj.dict (aset od "task_id" (PVal.str u1)))).get ob =
        some (Obj.dict (aset od "task_id" (PVal.str u1))) :=
      Heap.get_write_self h ob _ (Heap.lt_of_get h ob _ hOd)
    have hWriteBack1 : dictWrite
        (h.write ob (Obj.dict (aset od "task_id" (PVal.str u1))))
        (PVal.ref kw) "body" (PVal.ref b) =
        h.write ob (Obj.dict (aset od "task_id" (PVal.str u1))) := by
      simp only [dictWrite, hKd1, aset_of_alookup_eq kd "body" (PVal.ref b) hBody]
      exact Heap.write_same _ kw _ hKd1
    simp [chord.call, derefDict, hKd1, hBody, hWriteBack1, Sig.item,
      Sig.entries, hA1, hKw, hB1, hBo, hOd1,
      alookup_aset_self od "task_id" (PVal.str u1)]
  · intro b2 ob2 b2cls b2e b2ats od2 tid hB2 hBo2 hOd2 hTid hb2kw hob2kw
    have hB2w : (h.write kw (Obj.dict (aset kd "body" (PVal.ref b2)))).get b2 =
        some (Obj.sig b2cls b2e b2ats) := by
      rw [Heap.get_write_ne h kw _ b2 hb2kw]
      exact hB2
    have hOd2w : (h.write kw (Obj.dict (aset kd "body" (PVal.ref b2)))).get ob2 =
        some (Obj.dict od2) := by
      rw [Heap.get_write_ne h kw _ ob2 hob2kw]
      exact hOd2
    simp [chord.call, derefDict, hKd, hBody, dictWrite, Sig.item,
      Sig.entries, hA, hKw, hB2w, hBo2, hOd2w, hTid]

/-- Witness for C9 at the concrete chord `c9chord` (stored body without a
`task_id`): the first invocation writes `uuid-1` into the body's options and
returns it; a second invocation, offered the fresh id `uuid-2`, returns
`uuid-1` again and leaves the heap unchanged. -/
theorem c9_chord_call_witness :
    chord.call c9chord.1 c9chord.2 Option.none false "uuid-1" =
      Except.ok (c9chord.1.write 5
        (Obj.dict [("task_id", PVal.str "uuid-1")]), PVal.str "uuid-1") ∧
    chord.call (c9chord.1.write 5 (Obj.dict [("task_id", PVal.str "uuid-1")]))
        c9chord.2 Option.none false "uuid-2" =
      Except.ok (c9chord.1.write 5
        (Obj.dict [("task_id", PVal.str "uuid-1")]), PVal.str "uuid-1") := by
  have hth := c9_chord_call_mutates_and_reuses c9chord.1 c9chord.2 7 6 5
    SigClass.signature _ _ _ _ _ [] "uuid-1"
    rfl rfl rfl rfl rfl rfl rfl rfl (by decide)
  exact ⟨hth.1, hth.2.1 "uuid-2"⟩

/-- `task.set(countdown=v)` on a well-formed member updates exactly its
options dict. -/
theorem set_countdown_eq (h : Heap) (m : MemberInfo) (v : PVal)
    (hwf : memberWF h m) :
    (Signature.set h m.sigAddr Option.none [("countdown", v)]).1 =
      h.write m.optAddr (Obj.dict (aupdate m.optContents [("countdown", v)])) := by
  obtain ⟨hs, ho, hd⟩ := hwf
  simp [Signature.set, Sig.item, Sig.entries, hs, ho, hd]

/-- The `skew` loop: member `j` of the remaining list receives the
`(i+j)`-th progression value in its options dict, and cells that are no
member's options dict are untouched. -/
theorem skewGo_spec (start : Int) (stp : Option Int) (step : Int) :
    ∀ (ms : List MemberInfo) (h : Heap) (i : Nat),
    (∀ m ∈ ms, memberWF h m) → skewSep ms →
    ((∀ j (hj : j < ms.length),
      (group.skewGo h (ms.map (fun m => PVal.ref m.sigAddr)) start stp step i).get
        (ms.get ⟨j, hj⟩).optAddr =
        some (Obj.dict (aupdate (ms.get ⟨j, hj⟩).optContents
          [("countdown", PVal.int (fxrangeVal start stp step (i + j)))]))) ∧
    (∀ x, (∀ m ∈ ms, m.optAddr ≠ x) →
      (group.skewGo h (ms.map (fun m => PVal.ref m.sigAddr)) start stp step i).get
        x = h.get x)) := by
  intro ms
  induction ms with
  | nil =>
    intro h i _ _
    exact ⟨fun j hj => absurd hj (by simp), fun x _ => by simp [group.skewGo]⟩
  | cons m rest ih =>
    intro h i hWF hSep
    have hwfm : memberWF h m := hWF m (List.mem_cons_self m rest)
    obtain ⟨hs, ho, hd⟩ := hwfm
    have hmlt : m.optAddr < h.objs.length := Heap.lt_of_get h m.optAddr _ hd
    have hGo : group.skewGo h ((m :: rest).map (fun m => PVal.ref m.sigAddr))
        start stp step i =
        group.skewGo
          (h.write m.optAddr (Obj.dict (aupdate m.optContents
            [("countdown", PVal.int (fxrangeVal start stp step i))])))
          (rest.map (fun m => PVal.ref m.sigAddr)) start stp step (i + 1) := by
      simp only [List.map_cons, group.skewGo]
      rw [set_countdown_eq h m _ ⟨hs, ho, hd⟩]
    obtain ⟨hnd, hdisj⟩ := hSep
    have hnd2 : (m.optAddr :: rest.map MemberInfo.optAddr).Nodup := by
      simpa using hnd
    have hSepRest : skewSep rest := by
      refine ⟨(List.nodup_cons.mp hnd2).2, ?_⟩
      intro x hx y hy
      exact hdisj x (List.mem_cons_of_mem m hx) y (List.mem_cons_of_mem m hy)
    have hWFRest : ∀ m' ∈ rest,
        memberWF (h.write m.optAddr (Obj.dict (aupdate m.optContents
          [("countdown", PVal.int (fxrangeVal start stp step i))]))) m' := by
      intro m' hm'
      obtain ⟨hs', ho', hd'⟩ := hWF m' (List.mem_cons_of_mem m hm')
      refine ⟨?_, ho', ?_⟩
      · rw [Heap.get_write_ne h m.optAddr _ m'.sigAddr (fun hEq =>
          hdisj m (List.mem_cons_self m rest) m'
            (List.mem_cons_of_mem m hm') hEq.symm)]
        exact hs'
      · rw [Heap.get_write_ne h m.optAddr _ m'.optAddr ?hne2]
        · exact hd'
        case hne2 =>
          intro hEq
          have hmem : m.optAddr ∈ rest.map MemberInfo.optAddr := by
            rw [← hEq]
            exact List.mem_map_of_mem MemberInfo.optAddr hm'
          exact (List.nodup_cons.mp hnd2).1 hmem
    obtain ⟨ih1, ih2⟩ := ih
      (h.write m.optAddr (Obj.dict (aupdate m.optContents
        [("countdown", PVal.int (fxrangeVal start stp step i))])))
      (i + 1) hWFRest hSepRest
    constructor
    · intro j hj
      cases j with
      | zero =>
        rw [hGo]
        simp only [List.get]
        rw [ih2 m.optAddr ?hnotin]
        · rw [Heap.get_write_self h m.optAddr _ hmlt]
          simp
        case hnotin =>
          intro m' hm' hEq
          have hmem : m.optAddr ∈ rest.map MemberInfo.optAddr := by
            rw [← hEq]
            exact List.mem_map_of_mem MemberInfo.optAddr hm'
          exact (List.nodup_cons.mp hnd2).1 hmem
      | succ j' =>
        rw [hGo]
        have hj' : j' < rest.length := by simpa using hj
        simp only [List.get]
        rw [show i + (j' + 1) = (i + 1) + j' from by omega]
        exact ih1 j' hj'
    · intro x hx
      rw [hGo, ih2 x (fun m' hm' => hx m' (List.mem_cons_of_mem m hm'))]
      exact Heap.get_write_ne h m.optAddr _ x
        (hx m (List.mem_cons_self m rest)).symm

/-- C6: `group.skew` mutates the group's members in place and returns the
group itself; member `j` (in iteration order) receives, in its own stored
options mapping, a `countdown` equal to the `j`-th value of the modelled
`fxrange` progression — `start + j*step` until `stop` is passed, then
restarting cyclically (and simply `start + j*step` with no `stop`). -/
theorem c6_skew_progression
    (h : Heap) (g : Nat) (lv : PVal) (ms : List MemberInfo)
    (start step : Int) (stp : Option Int)
    (hTasks : Sig.attr h g "tasks" = some lv)
    (hElems : seqElems h lv = ms.map (fun m => PVal.ref m.sigAddr))
    (hWF : ∀ m ∈ ms, memberWF h m) (hSep : skewSep ms) :
    (group.skew h g start stp step).2 = g ∧
    ∀ j (hj : j < ms.length),
      (group.skew h g start stp step).1.get (ms.get ⟨j, hj⟩).optAddr =
        some (Obj.dict (aupdate (ms.get ⟨j, hj⟩).optContents
          [("countdown", PVal.int (fxrangeVal start stp step j))])) := by
  refine ⟨rfl, ?_⟩
  intro j hj
  have hspec := (skewGo_spec start stp step ms h 0 hWF hSep).1 j hj
  rw [Nat.zero_add] at hspec
  show (group.skewGo h (seqElems h ((Sig.attr h g "tasks").getD PVal.none))
      start stp step 0).get (ms.get ⟨j, hj⟩).optAddr = _
  rw [hTasks]
  show (group.skewGo h (seqElems h lv) start stp step 0).get
      (ms.get ⟨j, hj⟩).optAddr = _
  rw [hElems]
  exact hspec

/-- Witness for C6: `Group([T,T,T]).skew(start=0, step=1)` — three distinct
members — returns the group itself and assigns countdowns 0, 1, 2 to the
members' options dicts in iteration order. -/
theorem c6_skew_witness :
    (group.skew c6grp.1 c6grp.2 0 Option.none 1).2 = c6grp.2 ∧
    (group.skew c6grp.1 c6grp.2 0 Option.none 1).1.get 1 =
      some (Obj.dict [("countdown", PVal.int 0)]) ∧
    (group.skew c6grp.1 c6grp.2 0 Option.none 1).1.get 4 =
      some (Obj.dict [("countdown", PVal.int 1)]) ∧
    (group.skew c6grp.1 c6grp.2 0 Option.none 1).1.get 7 =
      some (Obj.dict [("countdown", PVal.int 2)]) := by
  have hth := c6_skew_progression c6grp.1 c6grp.2 (PVal.ref 9) c6ms 0 1
    Option.none rfl rfl
    (by
      intro m hm
      simp only [c6ms, List.mem_cons, List.not_mem_nil, or_false] at hm
      rcases hm with rfl | rfl | rfl <;> exact ⟨rfl, rfl, rfl⟩)
    (by constructor <;> decide)
  refine ⟨hth.1, ?_, ?_, ?_⟩
  · exact hth.2 0 (by decide)
  · exact hth.2 1 (by decide)
  · exact hth.2 2 (by decide)

/-- Unfolding equation of `chunksParts` in the regular case. -/
theorem chunksParts_cons {α : Type} (xs : List α) (n : Nat)
    (h1 : ¬ xs.isEmpty = true) (h2 : n ≠ 0) :
    chunksParts xs n = xs.take n :: chunksParts (xs.drop n) n := by
  rw [chunksParts]
  simp [h1, h2]

/-- The slices of `chunksParts` concatenate back to the input: consecutive
slices covering every element exactly once, in order. -/
theorem chunksParts_join {α : Type} (xs : List α) (n : Nat) :
    (chunksParts xs n).join = xs := by
  induction xs, n using chunksParts.induct with
  | case1 xs n h =>
    rw [chunksParts]
    simp [h, List.isEmpty_iff.mp h]
  | case2 xs h =>
    rw [chunksParts]
    simp [h]
  | case3 xs n h1 h2 ih =>
    rw [chunksParts_cons xs n h1 h2]
    simp [ih]

/-- `chunksParts` is empty exactly on empty input. -/
theorem chunksParts_eq_nil_iff {α : Type} (xs : List α) (n : Nat) :
    chunksParts xs n = [] ↔ xs = [] := by
  rw [chunksParts]
  by_cases h1 : xs.isEmpty
  · simp [h1, List.isEmpty_iff.mp h1]
  · have hne : xs ≠ [] := fun hh => h1 (by simp [hh])
    by_cases h2 : n = 0 <;> simp [h1, h2, hne]

/-- Every slice of `chunksParts` has between 1 and `n` elements, and every
slice but possibly the last has exactly `n` (chunk size ≥ 1). -/
theorem chunksParts_sizes {α : Type} (xs : List α) (n : Nat) (hn : 1 ≤ n) :
    (∀ p ∈ chunksParts xs n, 1 ≤ p.length ∧ p.length ≤ n) ∧
    (∀ i p, (chunksParts xs n).get? i = some p →
      i + 1 < (chunksParts xs n).length → p.length = n) := by
  induction xs, n using chunksParts.induct with
  | case1 xs n h =>
    rw [chunksParts]
    simp [h]
  | case2 xs h => omega
  | case3 xs n h1 h2 ih =>
    have hxs : xs ≠ [] := fun hh => h1 (by simp [hh])
    have hlen : 0 < xs.length := List.length_pos.mpr hxs
    have hE := chunksParts_cons xs n h1 h2
    constructor
    · intro p hp
      rw [hE] at hp
      simp only [List.mem_cons] at hp
      rcases hp with rfl | hp
      · refine ⟨?_, ?_⟩ <;>
          · simp only [List.length_take]
            omega
      · exact (ih hn).1 p hp
    · intro i p hp hi
      rw [hE] at hp hi
      cases i with
      | zero =>
        simp only [List.get?] at hp
        cases hp
        simp only [List.length_cons] at hi
        have hrest : chunksParts (xs.drop n) n ≠ [] := by
          intro hh
          rw [hh] at hi
          simp at hi
        have hdrop : xs.drop n ≠ [] :=
          fun hh => hrest ((chunksParts_eq_nil_iff (xs.drop n) n).mpr hh)
        have hnlt : n < xs.length := by
          by_contra hc
          exact hdrop (List.drop_eq_nil_of_le (Nat.le_of_not_lt hc))
        simp only [List.length_take]
        omega
      | succ i' =>
        simp only [List.get?] at hp
        simp only [List.length_cons] at hi
        exact (ih hn).2 i' p hp (by omega)

/-- Reading a cell of the freshly appended region of a heap. -/
theorem Heap.get_append_offset (objs ext : List Obj) (i : Nat) :
    Heap.get ⟨objs ++ ext⟩ (objs.length + i) = ext.get? i := by
  simp only [Heap.get, List.get?_eq_getElem?]
  rw [List.getElem?_append_right (Nat.le_add_right _ _)]
  simp

/-- The three cells `Signature.init` allocates: the kwargs dict, the options
dict, and the signature itself. -/
theorem signature_init_shape (h : Heap) (cls : SigClass) (task : String)
    (args : List PVal) (kwargs options : List (String × PVal))
    (st : PVal) (imm : Bool) :
    (Signature.init h cls task args kwargs options st imm).1.objs =
      h.objs ++ [Obj.dict kwargs, Obj.dict options,
        Obj.sig cls
          [("task", PVal.str task), ("args", PVal.tup args),
           ("kwargs", PVal.ref h.objs.length),
           ("options", PVal.ref (h.objs.length + 1)),
           ("subtask_type", st), ("immutable", PVal.bool imm)]
          [("_type", PVal.none)]] ∧
    (Signature.init h cls task args kwargs options st imm).2 =
      h.objs.length + 2 := by
  constructor <;>
    simp [Signature.init, Heap.allocDict, Heap.alloc, Heap.allocSig]

/-- `buildStarmaps` only appends to the heap, and pairs its result values
one-to-one with the slices: each is a reference to an `xstarmap` whose
stored kwargs carry the shared task and that slice. -/
theorem buildStarmaps_spec (task : PVal) :
    ∀ (parts : List (List PVal)) (h : Heap),
      (∃ ext, (buildStarmaps h task parts).1.objs = h.objs ++ ext) ∧
      List.Forall₂ (fun v p => ∃ m ke oe : Nat, v = PVal.ref m ∧
          (buildStarmaps h task parts).1.get m = some (Obj.sig
            SigClass.xstarmapC
            [("task", PVal.str "celery.starmap"), ("args", PVal.tup []),
             ("kwargs", PVal.ref ke), ("options", PVal.ref oe),
             ("subtask_type", PVal.none), ("immutable", PVal.bool true)]
            [("_type", PVal.none)]) ∧
          (buildStarmaps h task parts).1.get ke =
            some (Obj.dict [("task", task), ("it", PVal.tup p)]))
        (buildStarmaps h task parts).2 parts := by
  intro parts
  induction parts with
  | nil =>
    intro h
    exact ⟨⟨[], by simp [buildStarmaps]⟩, by simp [buildStarmaps]⟩
  | cons p ps ih =>
    intro h
    obtain ⟨hShape, hMeq⟩ :=
      signature_init_shape h SigClass.xstarmapC "celery.starmap" []
        [("task", task), ("it", PVal.tup p)] [] PVal.none true
    have hShape' : (xstarmap.init h task (PVal.tup p) []).1.objs = _ := hShape
    have hMeq' : (xstarmap.init h task (PVal.tup p) []).2 = h.objs.length + 2 :=
      hMeq
    obtain ⟨⟨ext, hext⟩, hforall⟩ := ih (xstarmap.init h task (PVal.tup p) []).1
    have hBS : buildStarmaps h task (p :: ps) =
        ((buildStarmaps (xstarmap.init h task (PVal.tup p) []).1 task ps).1,
          PVal.ref (xstarmap.init h task (PVal.tup p) []).2 ::
            (buildStarmaps (xstarmap.init h task (PVal.tup p) []).1 task ps).2) := by
      simp [buildStarmaps]
    -- the three freshly allocated cells, read back in the final heap
    have hSig1 : (xstarmap.init h task (PVal.tup p) []).1.get (h.objs.length + 2) =
        some (Obj.sig SigClass.xstarmapC
          [("task", PVal.str "celery.starmap"), ("args", PVal.tup []),
           ("kwargs", PVal.ref h.objs.length),
           ("options", PVal.ref (h.objs.length + 1)),
           ("subtask_type", PVal.none), ("immutable", PVal.bool true)]
          [("_type", PVal.none)]) := by
      have := Heap.get_append_offset h.objs
        [Obj.dict [("task", task), ("it", PVal.tup p)], Obj.dict [],
         Obj.sig SigClass.xstarmapC
           [("task", PVal.str "celery.starmap"), ("args", PVal.tup []),
            ("kwargs", PVal.ref h.objs.length),
            ("options", PVal.ref (h.objs.length + 1)),
            ("subtask_type", PVal.none), ("immutable", PVal.bool true)]
           [("_type", PVal.none)]] 2
      rw [show ((xstarmap.init h task (PVal.tup p) []).1 : Heap) =
          ⟨(xstarmap.init h task (PVal.tup p) []).1.objs⟩ from rfl, hShape']
      exact this
    have hKw1 : (xstarmap.init h task (PVal.tup p) []).1.get h.objs.length =
        some (Obj.dict [("task", task), ("it", PVal.tup p)]) := by
      have := Heap.get_append_offset h.objs
        [Obj.dict [("task", task), ("it", PVal.tup p)], Obj.dict [],
         Obj.sig SigClass.xstarmapC
           [("task", PVal.str "celery.starmap"), ("args", PVal.tup []),
            ("kwargs", PVal.ref h.objs.length),
            ("options", PVal.ref (h.objs.length + 1)),
            ("subtask_type", PVal.none), ("immutable", PVal.bool true)]
           [("_type", PVal.none)]] 0
      rw [Nat.add_zero] at this
      rw [show ((xstarmap.init h task (PVal.tup p) []).1 : Heap) =
          ⟨(xstarmap.init h task (PVal.tup p) []).1.objs⟩ from rfl, hShape']
      exact this
    have hSigF := Heap.get_ext _ _ ext hext _ _ hSig1
    have hKwF := Heap.get_ext _ _ ext hext _ _ hKw1
    constructor
    · refine ⟨[Obj.dict [("task", task), ("it", PVal.tup p)], Obj.dict [],
        Obj.sig SigClass.xstarmapC
          [("task", PVal.str "celery.starmap"), ("args", PVal.tup []),
           ("kwargs", PVal.ref h.objs.length),
           ("options", PVal.ref (h.objs.length + 1)),
           ("subtask_type", PVal.none), ("immutable", PVal.bool true)]
          [("_type", PVal.none)]] ++ ext, ?_⟩
      rw [hBS]
      simp only
      rw [hext, hShape', List.append_assoc]
    · rw [hBS]
      simp only
      refine List.Forall₂.cons
        ⟨h.objs.length + 2, h.objs.length, h.objs.length + 1,
          ?_, hSigF, hKwF⟩ hforall
      rw [hMeq']

/-- `group.init` over one already-materialized list object: the group
signature lands two cells above the old heap top, carries the list as its
`tasks` attribute, and every old cell is untouched. -/
theorem group_init_single_spec (h : Heap) (l : Nat) (members : List PVal)
    (hL : h.get l = some (Obj.pylist members)) :
    (group.init h [PVal.ref l] []).2 = h.objs.length + 2 ∧
    classOf (group.init h [PVal.ref l] []).1 (group.init h [PVal.ref l] []).2 =
      some SigClass.groupC ∧
    Sig.attr (group.init h [PVal.ref l] []).1 (group.init h [PVal.ref l] []).2
      "tasks" = some (PVal.ref l) ∧
    (∀ x o, h.get x = some o → (group.init h [PVal.ref l] []).1.get x = some o) := by
  have hMG : _maybe_group h (PVal.ref l) = (h, PVal.ref l) := by
    simp [_maybe_group, hL]
  obtain ⟨hShape, hG⟩ :=
    signature_init_shape h SigClass.groupC "celery.group" []
      [("tasks", PVal.ref l)] [] PVal.none false
  have hInitEq : group.init h [PVal.ref l] [] =
      (Sig.setItem
        (Sig.setAttr
          (Signature.init h SigClass.groupC "celery.group" []
            [("tasks", PVal.ref l)] [] PVal.none false).1
          (Signature.init h SigClass.groupC "celery.group" []
            [("tasks", PVal.ref l)] [] PVal.none false).2
          "tasks" (PVal.ref l))
        (Signature.init h SigClass.groupC "celery.group" []
          [("tasks", PVal.ref l)] [] PVal.none false).2
        "subtask_type" (PVal.str "group"),
       (Signature.init h SigClass.groupC "celery.group" []
         [("tasks", PVal.ref l)] [] PVal.none false).2) := by
    simp only [group.init, hMG]
  set H1 := (Signature.init h SigClass.groupC "celery.group" []
    [("tasks", PVal.ref l)] [] PVal.none false).1 with hH1def
  set g := (Signature.init h SigClass.groupC "celery.group" []
    [("tasks", PVal.ref l)] [] PVal.none false).2 with hgdef
  have hGetG : H1.get g = some (Obj.sig SigClass.groupC
      [("task", PVal.str "celery.group"), ("args", PVal.tup []),
       ("kwargs", PVal.ref h.objs.length),
       ("options", PVal.ref (h.objs.length + 1)),
       ("subtask_type", PVal.none), ("immutable", PVal.bool false)]
      [("_type", PVal.none)]) := by
    have := Heap.get_append_offset h.objs
      [Obj.dict [("tasks", PVal.ref l)], Obj.dict [],
       Obj.sig SigClass.groupC
         [("task", PVal.str "celery.group"), ("args", PVal.tup []),
          ("kwargs", PVal.ref h.objs.length),
          ("options", PVal.ref (h.objs.length + 1)),
          ("subtask_type", PVal.none), ("immutable", PVal.bool false)]
         [("_type", PVal.none)]] 2
    rw [hG, show (H1 : Heap) = ⟨H1.objs⟩ from rfl, hShape]
    exact this
  have hglen : g < H1.objs.length := Heap.lt_of_get H1 g _ hGetG
  have hSetAttr : Sig.setAttr H1 g "tasks" (PVal.ref l) =
      H1.write g (Obj.sig SigClass.groupC
        [("task", PVal.str "celery.group"), ("args", PVal.tup []),
         ("kwargs", PVal.ref h.objs.length),
         ("options", PVal.ref (h.objs.length + 1)),
         ("subtask_type", PVal.none), ("immutable", PVal.bool false)]
        [("_type", PVal.none), ("tasks", PVal.ref l)]) := by
    simp [Sig.setAttr, hGetG, aset]
  have hGetG2 : (Sig.setAttr H1 g "tasks" (PVal.ref l)).get g =
      some (Obj.sig SigClass.groupC
        [("task", PVal.str "celery.group"), ("args", PVal.tup []),
         ("kwargs", PVal.ref h.objs.length),
         ("options", PVal.ref (h.objs.length + 1)),
         ("subtask_type", PVal.none), ("immutable", PVal.bool false)]
        [("_type", PVal.none), ("tasks", PVal.ref l)]) := by
    rw [hSetAttr]
    exact Heap.get_write_self H1 g _ hglen
  have hFinal : (Sig.setItem (Sig.setAttr H1 g "tasks" (PVal.ref l)) g
      "subtask_type" (PVal.str "group")).get g =
      some (Obj.sig SigClass.groupC
        [("task", PVal.str "celery.group"), ("args", PVal.tup []),
         ("kwargs", PVal.ref h.objs.length),
         ("options", PVal.ref (h.objs.length + 1)),
         ("subtask_type", PVal.str "group"), ("immutable", PVal.bool false)]
        [("_type", PVal.none), ("tasks", PVal.ref l)]) := by
    simp only [Sig.setItem, hGetG2]
    have : g < (Sig.setAttr H1 g "tasks" (PVal.ref l)).objs.length := by
      rw [hSetAttr, Heap.write_length]
      exact hglen
    rw [show aset
        [("task", PVal.str "celery.group"), ("args", PVal.tup []),
         ("kwargs", PVal.ref h.objs.length),
         ("options", PVal.ref (h.objs.length + 1)),
         ("subtask_type", PVal.none), ("immutable", PVal.bool false)]
        "subtask_type" (PVal.str "group") =
        [("task", PVal.str "celery.group"), ("args", PVal.tup []),
         ("kwargs", PVal.ref h.objs.length),
         ("options", PVal.ref (h.objs.length + 1)),
         ("subtask_type", PVal.str "group"), ("immutable", PVal.bool false)]
      from by simp [aset]]
    exact Heap.get_write_self _ g _ this
  refine ⟨by rw [hInitEq]; exact hG, ?_, ?_, ?_⟩
  · rw [hInitEq]
    simp only [classOf]
    rw [hFinal]
  · rw [hInitEq]
    simp only [Sig.attr]
    rw [hFinal]
    simp [alookup]
  · intro x o hx
    have hxlen : x < h.objs.length := Heap.lt_of_get h x o hx
    have hxg : x ≠ g := by
      rw [hG]
      omega
    have hx1 : H1.get x = some o := by
      rw [show (H1 : Heap) = ⟨H1.objs⟩ from rfl, hShape]
      rw [Heap.get, List.get?_eq_getElem?, List.getElem?_append_left hxlen]
      rw [Heap.get, List.get?_eq_getElem?] at hx
      exact hx
    rw [hInitEq]
    simp only [Sig.setItem, hGetG2]
    rw [Heap.get_write_ne _ _ _ _ hxg, hSetAttr, Heap.get_write_ne _ _ _ _ hxg]
    exact hx1

/-- A list of member values pointwise shaped as starmaps over given slices
reads back exactly those slices. -/
theorem forall2_slices_map (H : Heap) (T : PVal) :
    ∀ (vs : List PVal) (parts : List (List PVal)),
    List.Forall₂ (fun v p => ∃ m ke oe : Nat, v = PVal.ref m ∧
        H.get m = some (Obj.sig SigClass.xstarmapC
          [("task", PVal.str "celery.starmap"), ("args", PVal.tup []),
           ("kwargs", PVal.ref ke), ("options", PVal.ref oe),
           ("subtask_type", PVal.none), ("immutable", PVal.bool true)]
          [("_type", PVal.none)]) ∧
        H.get ke = some (Obj.dict [("task", T), ("it", PVal.tup p)]))
      vs parts →
    vs.map (fun v => match v with
      | PVal.ref m => mapSlice H m
      | _ => []) = parts := by
  intro vs parts hf
  induction hf with
  | nil => rfl
  | cons hrel _ ih =>
    obtain ⟨m, ke, oe, rfl, hsig, hkw⟩ := hrel
    simp only [List.map_cons, ih]
    rw [show mapSlice H m = _ from rfl]
    simp [mapSlice, Sig.item, Sig.entries, hsig, derefDict, hkw, alookup,
      seqElems]

/-- C5: `chunks.group` partitions the stored element sequence into
consecutive slices of the stored chunk size (only the final slice possibly
shorter), builds one starmap per slice in slice order, and collects them
into one group preserving slice order; the slices join back to the input, so
every element is covered exactly once.  The final conjunct pins each group
member down as a StarMap over the stored task: an `xstarmap` instance whose
task name is `celery.starmap` and whose stored kwargs are exactly the task
`T` and the member's slice. -/
theorem c5_chunks_partition
    (h : Heap) (a kw : Nat) (e ats kd : List (String × PVal))
    (T : PVal) (xs : List PVal) (n : Nat)
    (hA : h.get a = some (Obj.sig SigClass.chunksC e ats))
    (hKw : alookup e "kwargs" = some (PVal.ref kw))
    (hKd : h.get kw = some (Obj.dict kd))
    (hT : alookup kd "task" = some T)
    (hIt : alookup kd "it" = some (PVal.tup xs))
    (hN : alookup kd "n" = some (PVal.int (Int.ofNat n)))
    (hn : 1 ≤ n) :
    classOf (chunks.toGroup h a).1 (chunks.toGroup h a).2 =
      some SigClass.groupC ∧
    slicesOf (chunks.toGroup h a).1 (chunks.toGroup h a).2 = chunksParts xs n ∧
    (chunksParts xs n).join = xs ∧
    (∀ p ∈ chunksParts xs n, 1 ≤ p.length ∧ p.length ≤ n) ∧
    (∀ i p, (chunksParts xs n).get? i = some p →
      i + 1 < (chunksParts xs n).length → p.length = n) ∧
    List.Forall₂ (fun v p => ∃ m, v = PVal.ref m ∧
        classOf (chunks.toGroup h a).1 m = some SigClass.xstarmapC ∧
        Sig.item (chunks.toGroup h a).1 m "task" =
          PVal.str "celery.starmap" ∧
        kwargsContents (chunks.toGroup h a).1 m =
          [("task", T), ("it", PVal.tup p)])
      (groupMembers (chunks.toGroup h a).1 (chunks.toGroup h a).2)
      (chunksParts xs n) := by
  have hEq : chunks.toGroup h a =
      group.init
        ((buildStarmaps h T (chunksParts xs n)).1.allocList
          (buildStarmaps h T (chunksParts xs n)).2).1
        [PVal.ref ((buildStarmaps h T (chunksParts xs n)).1.allocList
          (buildStarmaps h T (chunksParts xs n)).2).2] [] := by
    simp [chunks.toGroup, Sig.item, Sig.entries, hA, hKw, derefDict, hKd,
      hT, hIt, hN, seqElems]
  obtain ⟨⟨ext, hext⟩, hforall⟩ := buildStarmaps_spec T (chunksParts xs n) h
  have hL : ((buildStarmaps h T (chunksParts xs n)).1.allocList
        (buildStarmaps h T (chunksParts xs n)).2).1.get
      ((buildStarmaps h T (chunksParts xs n)).1.allocList
        (buildStarmaps h T (chunksParts xs n)).2).2 =
      some (Obj.pylist (buildStarmaps h T (chunksParts xs n)).2) :=
    Heap.get_alloc_self (buildStarmaps h T (chunksParts xs n)).1
      (Obj.pylist (buildStarmaps h T (chunksParts xs n)).2)
  obtain ⟨hg, hcls, htasks, hpres⟩ :=
    group_init_single_spec _ _ _ hL
  have hpres2 : ∀ x o, (buildStarmaps h T (chunksParts xs n)).1.get x = some o →
      (group.init
        ((buildStarmaps h T (chunksParts xs n)).1.allocList
          (buildStarmaps h T (chunksParts xs n)).2).1
        [PVal.ref ((buildStarmaps h T (chunksParts xs n)).1.allocList
          (buildStarmaps h T (chunksParts xs n)).2).2] []).1.get x = some o := by
    intro x o hx
    exact hpres x o (Heap.get_alloc_lt _ _ _ x hx)
  have hmembers : groupMembers (chunks.toGroup h a).1 (chunks.toGroup h a).2 =
      (buildStarmaps h T (chunksParts xs n)).2 := by
    rw [hEq]
    simp only [groupMembers, htasks, Option.getD_some, seqElems]
    rw [hpres ((buildStarmaps h T (chunksParts xs n)).1.allocList
        (buildStarmaps h T (chunksParts xs n)).2).2
      (Obj.pylist (buildStarmaps h T (chunksParts xs n)).2) hL]
  refine ⟨?_, ?_, chunksParts_join xs n, (chunksParts_sizes xs n hn).1,
    (chunksParts_sizes xs n hn).2, ?_⟩
  · rw [hEq]
    exact hcls
  · rw [slicesOf, hmembers]
    refine forall2_slices_map (chunks.toGroup h a).1 T _ _ ?_
    refine List.Forall₂.imp ?_ hforall
    intro v p hvp
    obtain ⟨m, ke, oe, rfl, hsig, hkw2⟩ := hvp
    refine ⟨m, ke, oe, rfl, ?_, ?_⟩
    · rw [hEq]
      exact hpres2 m _ hsig
    · rw [hEq]
      exact hpres2 ke _ hkw2
  · rw [hmembers]
    refine List.Forall₂.imp ?_ hforall
    intro v p hvp
    obtain ⟨m, ke, oe, rfl, hsig, hkw2⟩ := hvp
    have hsig2 := hpres2 m _ hsig
    have hkw22 := hpres2 ke _ hkw2
    refine ⟨m, rfl, ?_, ?_, ?_⟩
    · rw [hEq]
      simp [classOf, hsig2]
    · rw [hEq]
      simp [Sig.item, Sig.entries, hsig2, alookup]
    · rw [hEq]
      simp [kwargsContents, Sig.item, Sig.entries, hsig2, alookup,
        derefDict, hkw22]

/-- Witness for C5: the concrete `chunks` instance over elements `0..9` with
chunk size 3 becomes a group of four starmaps with slice sizes
`[3, 3, 3, 1]`, consecutive and covering all ten elements once, in order;
each member is an `xstarmap` over the stored task with exactly its slice. -/
theorem c5_chunks_witness :
    classOf (chunks.toGroup exChunks.1 exChunks.2).1
      (chunks.toGroup exChunks.1 exChunks.2).2 = some SigClass.groupC ∧
    (slicesOf (chunks.toGroup exChunks.1 exChunks.2).1
      (chunks.toGroup exChunks.1 exChunks.2).2).map List.length = [3, 3, 3, 1] ∧
    (slicesOf (chunks.toGroup exChunks.1 exChunks.2).1
      (chunks.toGroup exChunks.1 exChunks.2).2).join =
      (List.range 10).map (fun i => PVal.int (Int.ofNat i)) ∧
    List.Forall₂ (fun v p => ∃ m, v = PVal.ref m ∧
        classOf (chunks.toGroup exChunks.1 exChunks.2).1 m =
          some SigClass.xstarmapC ∧
        Sig.item (chunks.toGroup exChunks.1 exChunks.2).1 m "task" =
          PVal.str "celery.starmap" ∧
        kwargsContents (chunks.toGroup exChunks.1 exChunks.2).1 m =
          [("task", PVal.ref 24), ("it", PVal.tup p)])
      (groupMembers (chunks.toGroup exChunks.1 exChunks.2).1
        (chunks.toGroup exChunks.1 exChunks.2).2)
      (slicesOf (chunks.toGroup exChunks.1 exChunks.2).1
        (chunks.toGroup exChunks.1 exChunks.2).2) := by
  have hth := c5_chunks_partition exChunks.1 exChunks.2 31 _ _ _
    (PVal.ref 24) ((List.range 10).map (fun i => PVal.int (Int.ofNat i))) 3
    rfl rfl rfl rfl rfl rfl (by decide)
  refine ⟨hth.1, ?_, ?_, ?_⟩
  · rw [hth.2.1]
    simp [chunksParts, List.range_succ]
  · rw [hth.2.1]
    exact hth.2.2.1
  · rw [hth.2.1]
    exact hth.2.2.2.2.2

mutual

/-- `PVal.beq` is reflexive. -/
theorem PVal.beq_refl : ∀ v : PVal, PVal.beq v v = true
  | PVal.none => rfl
  | PVal.bool b => by simp [PVal.beq]
  | PVal.int n => by simp [PVal.beq]
  | PVal.str s => by simp [PVal.beq]
  | PVal.tup xs => by simp [PVal.beq, PVal.beqList_refl xs]
  | PVal.ref a => by simp [PVal.beq]

theorem PVal.beqList_refl : ∀ xs : List PVal, PVal.beqList xs xs = true
  | [] => rfl
  | x :: xs => by simp [PVal.beqList, PVal.beq_refl x, PVal.beqList_refl xs]

end

/-- `entriesBeq` is reflexive. -/
theorem entriesBeq_refl : ∀ d : List (String × PVal), entriesBeq d d = true
  | [] => rfl
  | (k, v) :: r => by simp [entriesBeq, PVal.beq_refl, entriesBeq_refl r]

/-- `valEq1` is reflexive. -/
theorem valEq1_refl (h : Heap) (x : PVal) : valEq1 h x x = true := by
  cases x <;> simp [valEq1, PVal.beq_refl]

/-- Reads after `Signature.init`: the fresh signature, its two fresh
mappings, and every old cell unchanged. -/
theorem signature_init_get (h : Heap) (cls : SigClass) (task : String)
    (args : List PVal) (kwargs options : List (String × PVal))
    (st : PVal) (imm : Bool) :
    (Signature.init h cls task args kwargs options st imm).1.get
        (h.objs.length + 2) =
      some (Obj.sig cls
        [("task", PVal.str task), ("args", PVal.tup args),
         ("kwargs", PVal.ref h.objs.length),
         ("options", PVal.ref (h.objs.length + 1)),
         ("subtask_type", st), ("immutable", PVal.bool imm)]
        [("_type", PVal.none)]) ∧
    (Signature.init h cls task args kwargs options st imm).1.get
        h.objs.length = some (Obj.dict kwargs) ∧
    (Signature.init h cls task args kwargs options st imm).1.get
        (h.objs.length + 1) = some (Obj.dict options) ∧
    (∀ x o, h.get x = some o →
      (Signature.init h cls task args kwargs options st imm).1.get x =
        some o) := by
  obtain ⟨hShape, _⟩ :=
    signature_init_shape h cls task args kwargs options st imm
  have hget : ∀ i, (Signature.init h cls task args kwargs options st imm).1.get
      (h.objs.length + i) =
      ([Obj.dict kwargs, Obj.dict options,
        Obj.sig cls
          [("task", PVal.str task), ("args", PVal.tup args),
           ("kwargs", PVal.ref h.objs.length),
           ("options", PVal.ref (h.objs.length + 1)),
           ("subtask_type", st), ("immutable", PVal.bool imm)]
          [("_type", PVal.none)]] : List Obj).get? i := by
    intro i
    rw [show (Signature.init h cls task args kwargs options st imm).1 =
        ⟨(Signature.init h cls task args kwargs options st imm).1.objs⟩
      from rfl, hShape]
    exact Heap.get_append_offset h.objs _ i
  refine ⟨hget 2, ?_, hget 1, ?_⟩
  · have := hget 0
    rw [Nat.add_zero] at this
    exact this
  · intro x o hx
    have hxlen : x < h.objs.length := Heap.lt_of_get h x o hx
    rw [show (Signature.init h cls task args kwargs options st imm).1 =
        ⟨(Signature.init h cls task args kwargs options st imm).1.objs⟩
      from rfl, hShape]
    rw [Heap.get, List.get?_eq_getElem?, List.getElem?_append_left hxlen]
    rw [Heap.get, List.get?_eq_getElem?] at hx
    exact hx

/-- Reads after the constructor pattern shared by `chain.__init__` and
`group.__init__`: `Signature.init`, then the `tasks` attribute, then the
`subtask_type` item. -/
theorem initAS_spec (h : Heap) (cls : SigClass) (task : String)
    (kwargs options : List (String × PVal)) (av sv : PVal) :
    (Sig.setItem
        (Sig.setAttr
          (Signature.init h cls task [] kwargs options PVal.none false).1
          (Signature.init h cls task [] kwargs options PVal.none false).2
          "tasks" av)
        (Signature.init h cls task [] kwargs options PVal.none false).2
        "subtask_type" sv).get (h.objs.length + 2) =
      some (Obj.sig cls
        [("task", PVal.str task), ("args", PVal.tup []),
         ("kwargs", PVal.ref h.objs.length),
         ("options", PVal.ref (h.objs.length + 1)),
         ("subtask_type", sv), ("immutable", PVal.bool false)]
        [("_type", PVal.none), ("tasks", av)]) ∧
    (Sig.setItem
        (Sig.setAttr
          (Signature.init h cls task [] kwargs options PVal.none false).1
          (Signature.init h cls task [] kwargs options PVal.none false).2
          "tasks" av)
        (Signature.init h cls task [] kwargs options PVal.none false).2
        "subtask_type" sv).get h.objs.length = some (Obj.dict kwargs) ∧
    (Sig.setItem
        (Sig.setAttr
          (Signature.init h cls task [] kwargs options PVal.none false).1
          (Signature.init h cls task [] kwargs options PVal.none false).2
          "tasks" av)
        (Signature.init h cls task [] kwargs options PVal.none false).2
        "subtask_type" sv).get (h.objs.length + 1) =
      some (Obj.dict options) ∧
    (Signature.init h cls task [] kwargs options PVal.none false).2 =
      h.objs.length + 2 ∧
    (∀ x o, h.get x = some o →
      (Sig.setItem
        (Sig.setAttr
          (Signature.init h cls task [] kwargs options PVal.none false).1
          (Signature.init h cls task [] kwargs options PVal.none false).2
          "tasks" av)
        (Signature.init h cls task [] kwargs options PVal.none false).2
        "subtask_type" sv).get x = some o) := by
  obtain ⟨hSig, hKw, hOpt, hPres⟩ :=
    signature_init_get h cls task [] kwargs options PVal.none false
  obtain ⟨_, hG⟩ := signature_init_shape h cls task [] kwargs options
    PVal.none false
  rw [hG]
  have hglt : h.objs.length + 2 <
      (Signature.init h cls task [] kwargs options PVal.none false).1.objs.length :=
    Heap.lt_of_get _ _ _ hSig
  have hA1 : Sig.setAttr
      (Signature.init h cls task [] kwargs options PVal.none false).1
      (h.objs.length + 2) "tasks" av =
      (Signature.init h cls task [] kwargs options PVal.none false).1.write
        (h.objs.length + 2)
        (Obj.sig cls
          [("task", PVal.str task), ("args", PVal.tup []),
           ("kwargs", PVal.ref h.objs.length),
           ("options", PVal.ref (h.objs.length + 1)),
           ("subtask_type", PVal.none), ("immutable", PVal.bool false)]
          [("_type", PVal.none), ("tasks", av)]) := by
    simp [Sig.setAttr, hSig, aset]
  have hGet2 : (Sig.setAttr
      (Signature.init h cls task [] kwargs options PVal.none false).1
      (h.objs.length + 2) "tasks" av).get (h.objs.length + 2) =
      some (Obj.sig cls
        [("task", PVal.str task), ("args", PVal.tup []),
         ("kwargs", PVal.ref h.objs.length),
         ("options", PVal.ref (h.objs.length + 1)),
         ("subtask_type", PVal.none), ("immutable", PVal.bool false)]
        [("_type", PVal.none), ("tasks", av)]) := by
    rw [hA1]
    exact Heap.get_write_self _ _ _ hglt
  have hItem : Sig.setItem
      (Sig.setAttr
        (Signature.init h cls task [] kwargs options PVal.none false).1
        (h.objs.length + 2) "tasks" av)
      (h.objs.length + 2) "subtask_type" sv =
      (Sig.setAttr
        (Signature.init h cls task [] kwargs options PVal.none false).1
        (h.objs.length + 2) "tasks" av).write (h.objs.length + 2)
        (Obj.sig cls
          [("task", PVal.str task), ("args", PVal.tup []),
           ("kwargs", PVal.ref h.objs.length),
           ("options", PVal.ref (h.objs.length + 1)),
           ("subtask_type", sv), ("immutable", PVal.bool false)]
          [("_type", PVal.none), ("tasks", av)]) := by
    simp [Sig.setItem, hGet2, aset]
  have hglt2 : h.objs.length + 2 <
      (Sig.setAttr
        (Signature.init h cls task [] kwargs options PVal.none false).1
        (h.objs.length + 2) "tasks" av).objs.length := by
    rw [hA1, Heap.write_length]
    exact hglt
  have hOther : ∀ x o, x ≠ h.objs.length + 2 →
      (Signature.init h cls task [] kwargs options PVal.none false).1.get x =
        some o →
      (Sig.setItem
        (Sig.setAttr
          (Signature.init h cls task [] kwargs options PVal.none false).1
          (h.objs.length + 2) "tasks" av)
        (h.objs.length + 2) "subtask_type" sv).get x = some o := by
    intro x o hxne hxget
    rw [hItem, Heap.get_write_ne _ _ _ _ hxne, hA1,
      Heap.get_write_ne _ _ _ _ hxne]
    exact hxget
  refine ⟨?_, ?_, ?_, rfl, ?_⟩
  · rw [hItem]
    exact Heap.get_write_self _ _ _ hglt2
  · exact hOther h.objs.length _ (by omega) hKw
  · exact hOther (h.objs.length + 1) _ (by omega) hOpt
  · intro x o hx
    have hxlen : x < h.objs.length := Heap.lt_of_get h x o hx
    exact hOther x o (by omega) (hPres x o hx)

/-- Reads after the constructor pattern of `chord.__init__`:
`Signature.init`, then only the `subtask_type` item. -/
theorem initS_spec (h : Heap) (cls : SigClass) (task : String)
    (kwargs options : List (String × PVal)) (sv : PVal) :
    (Sig.setItem
        (Signature.init h cls task [] kwargs options PVal.none false).1
        (Signature.init h cls task [] kwargs options PVal.none false).2
        "subtask_type" sv).get (h.objs.length + 2) =
      some (Obj.sig cls
        [("task", PVal.str task), ("args", PVal.tup []),
         ("kwargs", PVal.ref h.objs.length),
         ("options", PVal.ref (h.objs.length + 1)),
         ("subtask_type", sv), ("immutable", PVal.bool false)]
        [("_type", PVal.none)]) ∧
    (Sig.setItem
        (Signature.init h cls task [] kwargs options PVal.none false).1
        (Signature.init h cls task [] kwargs options PVal.none false).2
        "subtask_type" sv).get h.objs.length = some (Obj.dict kwargs) ∧
    (Sig.setItem
        (Signature.init h cls task [] kwargs options PVal.none false).1
        (Signature.init h cls task [] kwargs options PVal.none false).2
        "subtask_type" sv).get (h.objs.length + 1) =
      some (Obj.dict options) ∧
    (Signature.init h cls task [] kwargs options PVal.none false).2 =
      h.objs.length + 2 ∧
    (∀ x o, h.get x = some o →
      (Sig.setItem
        (Signature.init h cls task [] kwargs options PVal.none false).1
        (Signature.init h cls task [] kwargs options PVal.none false).2
        "subtask_type" sv).get x = some o) := by
  obtain ⟨hSig, hKw, hOpt, hPres⟩ :=
    signature_init_get h cls task [] kwargs options PVal.none false
  obtain ⟨_, hG⟩ := signature_init_shape h cls task [] kwargs options
    PVal.none false
  rw [hG]
  have hglt : h.objs.length + 2 <
      (Signature.init h cls task [] kwargs options PVal.none false).1.objs.length :=
    Heap.lt_of_get _ _ _ hSig
  have hItem : Sig.setItem
      (Signature.init h cls task [] kwargs options PVal.none false).1
      (h.objs.length + 2) "subtask_type" sv =
      (Signature.init h cls task [] kwargs options PVal.none false).1.write
        (h.objs.length + 2)
        (Obj.sig cls
          [("task", PVal.str task), ("args", PVal.tup []),
           ("kwargs", PVal.ref h.objs.length),
           ("options", PVal.ref (h.objs.length + 1)),
           ("subtask_type", sv), ("immutable", PVal.bool false)]
          [("_type", PVal.none)]) := by
    simp [Sig.setItem, hSig, aset]
  have hOther : ∀ x o, x ≠ h.objs.length + 2 →
      (Signature.init h cls task [] kwargs options PVal.none false).1.get x =
        some o →
      (Sig.setItem
        (Signature.init h cls task [] kwargs options PVal.none false).1
        (h.objs.length + 2) "subtask_type" sv).get x = some o := by
    intro x o hxne hxget
    rw [hItem, Heap.get_write_ne _ _ _ _ hxne]
    exact hxget
  refine ⟨?_, ?_, ?_, rfl, ?_⟩
  · rw [hItem]
    exact Heap.get_write_self _ _ _ hglt
  · exact hOther h.objs.length _ (by omega) hKw
  · exact hOther (h.objs.length + 1) _ (by omega) hOpt
  · intro x o hx
    have hxlen : x < h.objs.length := Heap.lt_of_get h x o hx
    exact hOther x o (by omega) (hPres x o hx)

/-- `Except` bind reduction (the do-notation of the `from_dict` family). -/
theorem except_bind_ok {α β : Type} (x : α) (f : α → Except PyErr β) :
    (Except.ok x >>= f : Except PyErr β) = f x := rfl

/-- `pure` into `Except` is `Except.ok`. -/
theorem except_pure_eq {α : Type} (x : α) :
    (pure x : Except PyErr α) = Except.ok x := rfl

/-- C4 (amended): serialization round trips of freshly constructed
instances.  (1) Any instance whose record carries no `subtask_type` — plain
descriptors, and the map/starmap/chunk family, which never set it —
deserializes to a plain `Signature` holding the record's entries verbatim:
field-wise equal, but the map variants' class is not restored.  (2) A chain
whose task sequence is stored as a tuple (the varargs construction; a chain
built from a single list stores the list and deserializes to a tuple, so it
is excluded — see the counterexample), (3) a group whose stored task
sequence the group-adoption step leaves unchanged, and (4) a chord whose
stored header the group-adoption step leaves unchanged, each with the
constructed `immutable = false`, deserialize through the `TYPES` dispatch to
the same variant, field-wise equal. -/
theorem c4_roundtrip_amended :
    (∀ (h : Heap) (a : Nat) cls (e ats : List (String × PVal)),
      h.get a = some (Obj.sig cls e ats) →
      (alookup e "subtask_type").getD PVal.none = PVal.none →
      ∃ h' b, Signature.from_dict h (Signature.reduceRecord h a) =
          Except.ok (h', b) ∧
        classOf h' b = some SigClass.signature ∧
        Sig.entries h' b = e ∧ fieldwiseEq h' a b = true) ∧
    (∀ (h : Heap) (a ko oo : Nat) (ats : List (String × PVal))
        (ts : List PVal) (O : List (String × PVal)),
      h.get a = some (Obj.sig SigClass.chainC
        [("task", PVal.str "celery.chain"), ("args", PVal.tup []),
         ("kwargs", PVal.ref ko), ("options", PVal.ref oo),
         ("subtask_type", PVal.str "chain"), ("immutable", PVal.bool false)]
        ats) →
      h.get ko = some (Obj.dict [("tasks", PVal.tup ts)]) →
      h.get oo = some (Obj.dict O) →
      chain.normalizeTasks h ts = PVal.tup ts →
      ∃ h' b, Signature.from_dict h (Signature.reduceRecord h a) =
          Except.ok (h', b) ∧
        classOf h' b = some SigClass.chainC ∧ fieldwiseEq h' a b = true) ∧
    (∀ (h : Heap) (a ko oo : Nat) (ats : List (String × PVal))
        (tv : PVal) (O : List (String × PVal)),
      h.get a = some (Obj.sig SigClass.groupC
        [("task", PVal.str "celery.group"), ("args", PVal.tup []),
         ("kwargs", PVal.ref ko), ("options", PVal.ref oo),
         ("subtask_type", PVal.str "group"), ("immutable", PVal.bool false)]
        ats) →
      h.get ko = some (Obj.dict [("tasks", tv)]) →
      h.get oo = some (Obj.dict O) →
      _maybe_group h tv = (h, tv) →
      ∃ h' b, Signature.from_dict h (Signature.reduceRecord h a) =
          Except.ok (h', b) ∧
        classOf h' b = some SigClass.groupC ∧ fieldwiseEq h' a b = true) ∧
    (∀ (h : Heap) (a ko oo : Nat) (ats : List (String × PVal))
        (hv bv : PVal) (O : List (String × PVal)),
      h.get a = some (Obj.sig SigClass.chordC
        [("task", PVal.str "celery.chord"), ("args", PVal.tup []),
         ("kwargs", PVal.ref ko), ("options", PVal.ref oo),
         ("subtask_type", PVal.str "chord"), ("immutable", PVal.bool false)]
        ats) →
      h.get ko = some (Obj.dict [("header", hv), ("body", bv)]) →
      h.get oo = some (Obj.dict O) →
      _maybe_group h hv = (h, hv) →
      ∃ h' b, Signature.from_dict h (Signature.reduceRecord h a) =
          Except.ok (h', b) ∧
        classOf h' b = some SigClass.chordC ∧ fieldwiseEq h' a b = true) := by
  refine ⟨?_, ?_, ?_, ?_⟩
  · -- (1) untagged records
    intro h a cls e ats hA hSt
    have hRec : Signature.reduceRecord h a = e := by
      simp [Signature.reduceRecord, Sig.entries, hA]
    have hGetB : (Signature.ofRecord h e).1.get (Signature.ofRecord h e).2 =
        some (Obj.sig SigClass.signature e [("_type", PVal.none)]) :=
      Heap.get_alloc_self h (Obj.sig SigClass.signature e [("_type", PVal.none)])
    have hA' : (Signature.ofRecord h e).1.get a = some (Obj.sig cls e ats) :=
      Heap.get_alloc_lt h (Obj.sig SigClass.signature e [("_type", PVal.none)])
        (Obj.sig cls e ats) a hA
    refine ⟨(Signature.ofRecord h e).1, (Signature.ofRecord h e).2, ?_, ?_, ?_, ?_⟩
    · rw [hRec]
      simp [Signature.from_dict, hSt, PVal.truthy, except_pure_eq]
    · simp [classOf, hGetB]
    · simp [Sig.entries, hGetB]
    · simp [fieldwiseEq, Sig.item, Sig.entries, hGetB, hA', valEq1_refl]
  · -- (2) chains with tuple-stored tasks
    intro h a ko oo ats ts O hA hKo hOo hNorm
    have hRec : Signature.reduceRecord h a =
        [("task", PVal.str "celery.chain"), ("args", PVal.tup []),
         ("kwargs", PVal.ref ko), ("options", PVal.ref oo),
         ("subtask_type", PVal.str "chain"), ("immutable", PVal.bool false)] := by
      simp [Signature.reduceRecord, Sig.entries, hA]
    obtain ⟨hB, hKwN, hOptN, hIdx, hPres⟩ :=
      initAS_spec h SigClass.chainC "celery.chain" [("tasks", PVal.tup ts)] O
        (PVal.tup ts) (PVal.str "chain")
    rw [hIdx] at hB hKwN hOptN hPres
    have hCIeq : chain.init h ts O =
        (Sig.setItem
          (Sig.setAttr
            (Signature.init h SigClass.chainC "celery.chain" []
              [("tasks", PVal.tup ts)] O PVal.none false).1
            (Signature.init h SigClass.chainC "celery.chain" []
              [("tasks", PVal.tup ts)] O PVal.none false).2
            "tasks" (PVal.tup ts))
          (Signature.init h SigClass.chainC "celery.chain" []
            [("tasks", PVal.tup ts)] O PVal.none false).2
          "subtask_type" (PVal.str "chain"),
         (Signature.init h SigClass.chainC "celery.chain" []
           [("tasks", PVal.tup ts)] O PVal.none false).2) := by
      simp only [chain.init, hNorm]
    have hFD : Signature.from_dict h (Signature.reduceRecord h a) =
        Except.ok (chain.init h ts O) := by
      rw [hRec]
      simp [Signature.from_dict, PVal.truthy, chain.from_dict, getKey,
        alookup, derefDict, hKo, hOo, splatElems, except_bind_ok,
        except_pure_eq]
    refine ⟨(chain.init h ts O).1, (chain.init h ts O).2, hFD, ?_, ?_⟩
    · rw [hCIeq]
      simp only [classOf, hIdx, hB]
    · have hA' := hPres a _ hA
      have hKoP := hPres ko _ hKo
      have hOoP := hPres oo _ hOo
      rw [hCIeq]
      simp only [hIdx]
      simp [fieldwiseEq, Sig.item, Sig.entries, hA', hB, alookup, valEq1,
        derefDict, hKoP, hOoP, hKwN, hOptN, entriesBeq_refl, PVal.beq_refl,
        PVal.beq, PVal.beqList]
  · -- (3) groups whose stored task sequence is adopted unchanged
    intro h a ko oo ats tv O hA hKo hOo hMG
    have hRec : Signature.reduceRecord h a =
        [("task", PVal.str "celery.group"), ("args", PVal.tup []),
         ("kwargs", PVal.ref ko), ("options", PVal.ref oo),
         ("subtask_type", PVal.str "group"), ("immutable", PVal.bool false)] := by
      simp [Signature.reduceRecord, Sig.entries, hA]
    obtain ⟨hB, hKwN, hOptN, hIdx, hPres⟩ :=
      initAS_spec h SigClass.groupC "celery.group" [("tasks", tv)] O
        tv (PVal.str "group")
    rw [hIdx] at hB hKwN hOptN hPres
    have hGIeq : group.init h [tv] O =
        (Sig.setItem
          (Sig.setAttr
            (Signature.init h SigClass.groupC "celery.group" []
              [("tasks", tv)] O PVal.none false).1
            (Signature.init h SigClass.groupC "celery.group" []
              [("tasks", tv)] O PVal.none false).2
            "tasks" tv)
          (Signature.init h SigClass.groupC "celery.group" []
            [("tasks", tv)] O PVal.none false).2
          "subtask_type" (PVal.str "group"),
         (Signature.init h SigClass.groupC "celery.group" []
           [("tasks", tv)] O PVal.none false).2) := by
      simp only [group.init, hMG]
    have hFD : Signature.from_dict h (Signature.reduceRecord h a) =
        Except.ok (group.init h [tv] O) := by
      rw [hRec]
      simp [Signature.from_dict, PVal.truthy, group.from_dict, getKey,
        alookup, derefDict, hKo, hOo, except_bind_ok, except_pure_eq]
    refine ⟨(group.init h [tv] O).1, (group.init h [tv] O).2, hFD, ?_, ?_⟩
    · rw [hGIeq]
      simp only [classOf, hIdx, hB]
    · have hA' := hPres a _ hA
      have hKoP := hPres ko _ hKo
      have hOoP := hPres oo _ hOo
      rw [hGIeq]
      simp only [hIdx]
      simp [fieldwiseEq, Sig.item, Sig.entries, hA', hB, alookup, valEq1,
        derefDict, hKoP, hOoP, hKwN, hOptN, entriesBeq_refl, PVal.beq_refl,
        PVal.beq, PVal.beqList]
  · -- (4) chords whose stored header is adopted unchanged
    intro h a ko oo ats hv bv O hA hKo hOo hMG
    have hRec : Signature.reduceRecord h a =
        [("task", PVal.str "celery.chord"), ("args", PVal.tup []),
         ("kwargs", PVal.ref ko), ("options", PVal.ref oo),
         ("subtask_type", PVal.str "chord"), ("immutable", PVal.bool false)] := by
      simp [Signature.reduceRecord, Sig.entries, hA]
    obtain ⟨hB, hKwN, hOptN, hIdx, hPres⟩ :=
      initS_spec h SigClass.chordC "celery.chord"
        [("header", hv), ("body", bv)] O (PVal.str "chord")
    rw [hIdx] at hB hKwN hOptN hPres
    have hCIeq : chord.init h hv bv O =
        (Sig.setItem
          (Signature.init h SigClass.chordC "celery.chord" []
            [("header", hv), ("body", bv)] O PVal.none false).1
          (Signature.init h SigClass.chordC "celery.chord" []
            [("header", hv), ("body", bv)] O PVal.none false).2
          "subtask_type" (PVal.str "chord"),
         (Signature.init h SigClass.chordC "celery.chord" []
           [("header", hv), ("body", bv)] O PVal.none false).2) := by
      simp only [chord.init, hMG, maybe_subtask]
    have hFD : Signature.from_dict h (Signature.reduceRecord h a) =
        Except.ok (chord.init h hv bv O) := by
      rw [hRec]
      simp [Signature.from_dict, PVal.truthy, chord.from_dict, getKey,
        alookup, derefDict, hKo, hOo, except_bind_ok, except_pure_eq]
    refine ⟨(chord.init h hv bv O).1, (chord.init h hv bv O).2, hFD, ?_, ?_⟩
    · rw [hCIeq]
      simp only [classOf, hIdx, hB]
    · have hA' := hPres a _ hA
      have hKoP := hPres ko _ hKo
      have hOoP := hPres oo _ hOo
      rw [hCIeq]
      simp only [hIdx]
      simp [fieldwiseEq, Sig.item, Sig.entries, hA', hB, alookup, valEq1,
        derefDict, hKoP, hOoP, hKwN, hOptN, entriesBeq_refl, PVal.beq_refl,
        PVal.beq, PVal.beqList]

/-- Witness for C4: the four amended cases at concrete instances — an
`xmap` (untagged, comes back plain with identical fields), and the chain,
group and chord built by the varargs/group-adoption constructions, which
come back as the same variant, field-wise equal. -/
theorem c4_roundtrip_witness :
    (∃ h' b, Signature.from_dict exXmap.1
        (Signature.reduceRecord exXmap.1 exXmap.2) = Except.ok (h', b) ∧
      classOf h' b = some SigClass.signature ∧
      Sig.entries h' b = Sig.entries exXmap.1 exXmap.2 ∧
      fieldwiseEq h' exXmap.2 b = true) ∧
    (∃ h' b, Signature.from_dict exChain.1
        (Signature.reduceRecord exChain.1 exChain.2) = Except.ok (h', b) ∧
      classOf h' b = some SigClass.chainC ∧
      fieldwiseEq h' exChain.2 b = true) ∧
    (∃ h' b, Signature.from_dict exGroup.1
        (Signature.reduceRecord exGroup.1 exGroup.2) = Except.ok (h', b) ∧
      classOf h' b = some SigClass.groupC ∧
      fieldwiseEq h' exGroup.2 b = true) ∧
    (∃ h' b, Signature.from_dict exChord.1
        (Signature.reduceRecord exChord.1 exChord.2) = Except.ok (h', b) ∧
      classOf h' b = some SigClass.chordC ∧
      fieldwiseEq h' exChord.2 b = true) := by
  refine ⟨?_, ?_, ?_, ?_⟩
  · exact c4_roundtrip_amended.1 exXmap.1 exXmap.2 SigClass.xmapC _ _ rfl rfl
  · exact c4_roundtrip_amended.2.1 exChain.1 exChain.2 9 10 _
      [PVal.ref exA.2, PVal.ref exB.2] [("opt", PVal.int 1)] rfl rfl rfl rfl
  · exact c4_roundtrip_amended.2.2.1 exGroup.1 exGroup.2 12 13 _
      (PVal.tup [PVal.ref exA.2, PVal.ref exB.2]) [] rfl rfl rfl rfl
  · exact c4_roundtrip_amended.2.2.2 exChord.1 exChord.2 19 20 _
      (PVal.ref exHdr.2) (PVal.ref exBody.2) [] rfl rfl rfl rfl

/-- Counterexamples to C4 as stated, and the forced exclusions of the
amendment: (a) deserializing an elementwise-map instance does not restore
the map variant — its record's `subtask_type` is `None` (never set by
`_basemap.__init__`), so dispatch falls through to a plain `Signature`;
(b) a chain built from a single list stores the list object as its task
sequence, while deserialization rebuilds a tuple, so the round trip is not
field-wise equal (as in Python, where a list never equals a tuple). -/
theorem c4_roundtrip_counterexamples :
    (∃ h' b,
      Signature.from_dict exXmap.1 (Signature.reduceRecord exXmap.1 exXmap.2) =
        Except.ok (h', b) ∧
      classOf exXmap.1 exXmap.2 = some SigClass.xmapC ∧
      classOf h' b = some SigClass.signature ∧
      SigClass.signature ≠ SigClass.xmapC) ∧
    (∃ h' b,
      Signature.from_dict exChainL.1
          (Signature.reduceRecord exChainL.1 exChainL.2) =
        Except.ok (h', b) ∧
      classOf h' b = some SigClass.chainC ∧
      alookup (kwargsContents exChainL.1 exChainL.2) "tasks" =
        some (PVal.ref exChainLlist.2) ∧
      alookup (kwargsContents h' b) "tasks" =
        some (PVal.tup [PVal.ref exA.2, PVal.ref exB.2]) ∧
      fieldwiseEq h' exChainL.2 b = false) := by
  refine ⟨⟨_, _, rfl, rfl, rfl, by decide⟩, ⟨_, _, rfl, rfl, rfl, rfl, rfl⟩⟩

end Canvas
